import Mathlib

/-!
# k-means window function (`kmeans.c`): embedding and verified properties

Modelling conventions.

* `float8` is idealised as a linearly ordered field `F`; the C library `sqrt`
  is a parameter `sqrt : F → F` of every function that calls it.  Statements
  that need properties of the square root are made over `ℝ` with `Real.sqrt`.
  Infinities and NaN are outside the model: a statement that holds only while
  the objective is finite says so and carries `target - target = 0` as a
  hypothesis (float8 gives NaN for an objective that overflowed to infinity).
* A `float8 *` (`myvector`) that is indexed with an `int` read from memory
  (`mean`, `mean_sum`) is a total map `Int → F` from offsets to cells; buffers
  that are only indexed by loop counters (`inputs`, `r`, `minlist`, `maxlist`)
  are maps from `Nat`.  A write is `Function.update`.
* `for (x = 0; x < n; x++)` is a left fold over `List.range n`.
* The unbounded `for (;;)` of `calc_kmeans` takes a fuel argument and returns
  `none` when the fuel runs out.
* An SQL NULL argument is `none`, which is what `isnull` reports.
  `DatumGetArrayTypeP` hands every non-NULL value on unchanged.  kmeans.c
  applies it to the datum before it tests `isnull` (lines 208, 220, 241); what
  PostgreSQL does with a NULL datum there is not determined by kmeans.c, so
  the model stops such a call with the marker `null_datum_detoasted` and says
  nothing more about it.
* Where a statement depends on float8 rounding, the rounding is a parameter
  `rnd` applied to the result of every operation (`calc_distance_rounded`);
  `rnd = id` is the exact arithmetic of the other definitions.
* `palloc` failures and `int` overflow are outside the model.
-/

namespace Kmeans

section Core

variable {F : Type} [LinearOrderedField F]

/-- `calc_distance` (kmeans.c 39-50): square root of the sum of the squared
per-dimension differences of the two vectors `v1`, `v2`. -/
def calc_distance (sqrt : F → F) (v1 v2 : Nat → F) (dim : Nat) : F :=
  sqrt ((List.range dim).foldl
    (fun sum (a : Nat) => sum + (v1 a - v2 a) * (v1 a - v2 a)) 0)

/-- `calc_distance` (kmeans.c 39-50) with the float8 rounding made explicit:
`rnd` is applied to the result of every operation, the difference, the
product, the addition to `sum` and the square root.  With `rnd = id` this is
`calc_distance`. -/
def calc_distance_rounded (rnd : F → F) (sqrt : F → F) (v1 v2 : Nat → F) (dim : Nat) : F :=
  rnd (sqrt ((List.range dim).foldl
    (fun sum (a : Nat) => rnd (sum + rnd (rnd (v1 a - v2 a) * rnd (v1 a - v2 a)))) 0))

/-- Inner loop of `update_r` (kmeans.c 69-77) for row `i`: the pair
`(curr_dist, curr_klass)` after scanning the centroids `0 .. k-1`.  Both
locals are uninitialised in C and are first written at `klass = 0`; the model
starts them at `(0, 0)`. -/
def update_r_search (sqrt : F → F) (inputs : Nat → F) (dim k : Nat)
    (mean : Int → F) (i : Nat) : F × Int :=
  (List.range k).foldl
    (fun (curr : F × Int) (klass : Nat) =>
      let dist := calc_distance sqrt (fun a => inputs (i * dim + a))
        (fun a => mean ((klass : Int) * dim + a)) dim
      if klass = 0 ∨ dist < curr.1 then (dist, (klass : Int)) else curr)
    (0, 0)

/-- `update_r` (kmeans.c 55-80): writes into `r[i]`, for every row `i < N`,
the class found by the inner search. -/
def update_r (sqrt : F → F) (inputs : Nat → F) (dim N k : Nat)
    (mean : Int → F) (r : Nat → Int) : Nat → Int :=
  (List.range N).foldl
    (fun r (i : Nat) => Function.update r i (update_r_search sqrt inputs dim k mean i).2)
    r

/-- First loop of `update_mean` (kmeans.c 92-101): the zero-initialised
buffers `mean_sum` and `mean_count` after all rows were accumulated. -/
def update_mean_sums (inputs : Nat → F) (dim N : Nat) (r : Nat → Int) :
    (Int → F) × (Int → Int) :=
  (List.range N).foldl
    (fun (acc : (Int → F) × (Int → Int)) (i : Nat) =>
      let klass := r i
      let mean_sum := (List.range dim).foldl
        (fun (ms : Int → F) (a : Nat) =>
          Function.update ms (klass * dim + a)
            (ms (klass * dim + a) + inputs (i * dim + a)))
        acc.1
      (mean_sum, Function.update acc.2 klass (acc.2 klass + 1)))
    (fun _ => 0, fun _ => 0)

/-- `update_mean` (kmeans.c 85-115): every cell of every centroid is
overwritten by the accumulated sum divided by the count, or by `0.0` when the
count is not positive. -/
def update_mean (inputs : Nat → F) (dim N k : Nat) (mean : Int → F)
    (r : Nat → Int) : Int → F :=
  let acc := update_mean_sums inputs dim N r
  (List.range k).foldl
    (fun (mean : Int → F) (klass : Nat) =>
      (List.range dim).foldl
        (fun (mean : Int → F) (a : Nat) =>
          if acc.2 (klass : Int) > 0 then
            Function.update mean ((klass : Int) * dim + a)
              (acc.1 ((klass : Int) * dim + a) / ((acc.2 (klass : Int) : Int) : F))
          else
            Function.update mean ((klass : Int) * dim + a) 0)
        mean)
    mean

/-- `J` (kmeans.c 120-131): the sum over the rows of the distance between the
row and the centroid it is labelled with. -/
def J (sqrt : F → F) (inputs : Nat → F) (dim N : Nat) (mean : Int → F)
    (r : Nat → Int) : F :=
  (List.range N).foldl
    (fun sum (i : Nat) => sum + calc_distance sqrt (fun a => inputs (i * dim + a))
      (fun a => mean (r i * dim + a)) dim)
    0

/-- The loop of `calc_kmeans` (kmeans.c 166-182) entered with `target`:
`none` when `fuel` passes did not reach the `break`. -/
def calc_kmeans_loop (sqrt : F → F) (inputs : Nat → F) (dim N k : Nat) :
    Nat → F → (Int → F) → (Nat → Int) → Option ((Int → F) × (Nat → Int))
  | 0, _, _, _ => none
  | fuel + 1, target, mean, r =>
    let r1 := update_r sqrt inputs dim N k mean r
    let mean1 := update_mean inputs dim N k mean r1
    let new_target := J sqrt inputs dim N mean1 r1
    let diff := target - new_target
    if diff < 1 / 100 then some (mean1, r1)
    else calc_kmeans_loop sqrt inputs dim N k fuel new_target mean1 r1

/-- `calc_kmeans` (kmeans.c 156-185): the final contents of `mean` and `r`. -/
def calc_kmeans (sqrt : F → F) (inputs : Nat → F) (dim N k : Nat) (fuel : Nat)
    (mean : Int → F) (r : Nat → Int) : Option ((Int → F) × (Nat → Int)) :=
  calc_kmeans_loop sqrt inputs dim N k fuel (J sqrt inputs dim N mean r) mean r

/-- The distance from row `i` to centroid `klass`, as `update_r` computes it. -/
def row_dist (sqrt : F → F) (inputs : Nat → F) (dim : Nat) (mean : Int → F)
    (i klass : Nat) : F :=
  calc_distance sqrt (fun a => inputs (i * dim + a))
    (fun a => mean ((klass : Int) * dim + a)) dim

/-- One pass of the loop body on the pair `(mean, r)`: Assignment
(`update_r`), then CentroidUpdate (`update_mean`) with the new labels. -/
def kmeans_pass (sqrt : F → F) (inputs : Nat → F) (dim N k : Nat)
    (s : (Int → F) × (Nat → Int)) : (Int → F) × (Nat → Int) :=
  (update_mean inputs dim N k s.1 (update_r sqrt inputs dim N k s.1 s.2),
    update_r sqrt inputs dim N k s.1 s.2)

/-- The pair `(mean, r)` after `t` passes, starting from the initial centroids
and the initial content of `r`. -/
def pass_state (sqrt : F → F) (inputs : Nat → F) (dim N k : Nat) (mean : Int → F)
    (r : Nat → Int) (t : Nat) : (Int → F) × (Nat → Int) :=
  (kmeans_pass sqrt inputs dim N k)^[t] (mean, r)

/-- The objective `J_t` after `t` passes; `J_0` is the objective of the initial
centroids against the initial content of `r`. -/
def objective_seq (sqrt : F → F) (inputs : Nat → F) (dim N k : Nat) (mean : Int → F)
    (r : Nat → Int) (t : Nat) : F :=
  J sqrt inputs dim N (pass_state sqrt inputs dim N k mean r t).1
    (pass_state sqrt inputs dim N k mean r t).2

end Core

/-! ## The window function `kmeans_impl` -/

/-- A PostgreSQL `float8[]` value as `kmeans_impl` reads it: `ARR_NDIM` is the
length of `dims`, `ARR_DIMS` is `dims`, `ARR_HASNULL` is `hasnull`, and
`ARR_DATA_PTR` points at `data`, the elements in storage order. -/
structure ArrayType (F : Type) where
  dims : List Nat
  hasnull : Bool
  data : List F

/-- The ways `kmeans_impl` stops before `calc_kmeans`.  The first two are the
`ereport(ERROR, ...)` of kmeans.c: "input vector not valid" (`KMEANS_CHECK_V`)
and "initial mean vector must be 2d without NULL element".  The third is no
`ereport`: it marks a call that handed a NULL datum to `DatumGetArrayTypeP`
(kmeans.c 208, 220, 241), which happens before `isnull` is tested; what
PostgreSQL does with that datum is not determined by kmeans.c. -/
inductive KmeansError where
  | input_vector_not_valid
  | initial_mean_not_valid
  | null_datum_detoasted
  deriving DecidableEq, Repr

/-- The arguments of the window function at one row of the partition: the
vector, `k`, and (for `kmeans_with_init`) the initial mean vectors.  `none` is
an SQL NULL (`isnull`). -/
structure WindowRow (F : Type) where
  arg0 : Option (ArrayType F)
  arg1 : Int
  arg2 : Option (ArrayType F)

/-- What `kmeans_impl` reads from the `WindowObject`: the rows of the partition
(`WinGetFuncArgInPartition` from the head), the row count
(`WinGetPartitionRowCount`) and the current position
(`WinGetCurrentPosition`). -/
structure WindowObject (F : Type) where
  row : Nat → WindowRow F
  rowcount : Nat
  curpos : Nat

/-- The partition-local memory `kmeans_context` (kmeans.c 33-37). -/
structure kmeans_context where
  isdone : Bool
  result : Nat → Int

/-- The partition-local memory as `WinGetPartitionLocalMemory` hands it out on
the first call for a partition: zero-filled. -/
def fresh_context : kmeans_context :=
  { isdone := false, result := fun _ => 0 }

/-- How a call of `kmeans_impl` ends: it returns a label, leaves through
`ereport(ERROR, ...)`, or is still inside `calc_kmeans` when the fuel is
used up. -/
inductive Outcome where
  | label (l : Int)
  | error (e : KmeansError)
  | out_of_fuel
  deriving DecidableEq, Repr

section Impl

variable {F : Type} [LinearOrderedField F]

/-- `ARR_NDIM(v)`. -/
def ARR_NDIM (v : ArrayType F) : Nat := v.dims.length

/-- `ARR_DIMS(v)[n]`. -/
def ARR_DIMS (v : ArrayType F) (n : Nat) : Nat := v.dims.getD n 0

/-- `ARR_HASNULL(v)`. -/
def ARR_HASNULL (v : ArrayType F) : Bool := v.hasnull

/-- `ARR_DATA_PTR(v)`, read at element offset `j`. -/
def ARR_DATA_PTR (v : ArrayType F) (j : Nat) : F := v.data.getD j 0

/-- `DatumGetArrayTypeP(d)`: a non-NULL datum is handed on as the array it
points to; a NULL datum stops the call with the marker
`null_datum_detoasted`. -/
def DatumGetArrayTypeP (d : Option (ArrayType F)) : Except KmeansError (ArrayType F) :=
  match d with
  | some x => .ok x
  | none => .error .null_datum_detoasted

/-- `KMEANS_CHECK_V(v, dim, isnull)` (kmeans.c 22-31), with `v` and `isnull`
given together as the datum (`none` is `isnull`): the error is raised when the
value is NULL, is not one-dimensional, has a length other than `dim`, or
contains a NULL element; otherwise the array is handed on. -/
def KMEANS_CHECK_V (v : Option (ArrayType F)) (dim : Nat) :
    Except KmeansError (ArrayType F) :=
  match v with
  | none => .error .input_vector_not_valid
  | some v =>
    if ARR_NDIM v ≠ 1 ∨ ARR_DIMS v 0 ≠ dim ∨ ARR_HASNULL v = true then
      .error .input_vector_not_valid
    else .ok v

/-- `memcpy(&dst[off], src, sizeof(float8) * n)`. -/
def memcpy (dst : Nat → F) (off : Nat) (src : Nat → F) (n : Nat) : Nat → F :=
  fun j => if off ≤ j ∧ j < off + n then src (j - off) else dst j

/-- The min/max update for row `i` (kmeans.c 226-232), returning
`(maxlist, minlist)`. -/
def update_minmax (inputs : Nat → F) (dim i : Nat) (maxlist minlist : Nat → F) :
    (Nat → F) × (Nat → F) :=
  (List.range dim).foldl
    (fun (mm : (Nat → F) × (Nat → F)) (a : Nat) =>
      let maxlist :=
        if i = 0 ∨ mm.1 a < inputs (i * dim + a) then
          Function.update mm.1 a (inputs (i * dim + a))
        else mm.1
      let minlist :=
        if i = 0 ∨ mm.2 a > inputs (i * dim + a) then
          Function.update mm.2 a (inputs (i * dim + a))
        else mm.2
      (maxlist, minlist))
    (maxlist, minlist)

/-- Matrix assembly (kmeans.c 215-233): the datum of every row goes through
`DatumGetArrayTypeP`, is checked against `dim`, copied into `inputs`, and
folded into `maxlist` and `minlist`.  The three buffers come from `palloc`
with unspecified content, modelled as zero. The result is
`(inputs, maxlist, minlist)`, or what stopped the loop at the first row that
does not pass. -/
def assemble (winobj : WindowObject F) (dim N : Nat) :
    Except KmeansError ((Nat → F) × (Nat → F) × (Nat → F)) :=
  (List.range N).foldl
    (fun (st : Except KmeansError ((Nat → F) × (Nat → F) × (Nat → F))) (i : Nat) =>
      match st with
      | .error e => .error e
      | .ok (inputs, maxlist, minlist) =>
        match DatumGetArrayTypeP (winobj.row i).arg0 with
        | .error e => .error e
        | .ok _ =>
          match KMEANS_CHECK_V (winobj.row i).arg0 dim with
          | .error e => .error e
          | .ok x =>
            let inputs := memcpy inputs (i * dim) (ARR_DATA_PTR x) dim
            let mm := update_minmax inputs dim i maxlist minlist
            .ok (inputs, mm.1, mm.2))
    (.ok (fun _ => 0, fun _ => 0, fun _ => 0))

/-- Supplied initial mean vectors (kmeans.c 241-255): the datum `init` goes
through `DatumGetArrayTypeP`; then the value must be non-NULL (`isnull`),
without NULL element, and either 2-d of shape `k × dim` or 1-d of length
`k * dim`; then `k * dim` elements are copied into `mean`. -/
def supplied_mean (init : Option (ArrayType F)) (k : Int) (dim : Nat) (mean : Int → F) :
    Except KmeansError (Int → F) :=
  match DatumGetArrayTypeP init with
  | .error e => .error e
  | .ok a =>
    if init.isNone = true ∨ ARR_HASNULL a = true ∨
        ¬ ((ARR_NDIM a = 2 ∧ (ARR_DIMS a 0 : Int) = k ∧ ARR_DIMS a 1 = dim) ∨
           (ARR_NDIM a = 1 ∧ (ARR_DIMS a 0 : Int) = k * dim)) then
      .error .initial_mean_not_valid
    else
      .ok (fun j => if 0 ≤ j ∧ j < k * dim then ARR_DATA_PTR a j.toNat else mean j)

/-- Derived initial mean vectors (kmeans.c 259-263). -/
def derived_mean (maxlist minlist : Nat → F) (dim k : Nat) (mean : Int → F) : Int → F :=
  (List.range k).foldl
    (fun (mean : Int → F) (i : Nat) =>
      (List.range dim).foldl
        (fun (mean : Int → F) (a : Nat) =>
          Function.update mean ((i : Int) * dim + a)
            ((maxlist a - minlist a) * ((i + 1 : Nat) : F) / ((dim + 1 : Nat) : F)
              + minlist a))
        mean)
    mean

/-- The body of `if (!context->isdone)` (kmeans.c 201-268) up to the call of
`calc_kmeans`: the final `r`, `none` when the fuel runs out inside
`calc_kmeans`, or what stopped the call on the way.  The datum of the current
row goes through `DatumGetArrayTypeP` before `KMEANS_CHECK_V` (kmeans.c
208-210).  `k` is the `int` argument; as a loop bound a non-positive `k` is
the same as `0`.  The buffer `mean` comes from `palloc`, modelled as zero. -/
def kmeans_run (sqrt : F → F) (fuel : Nat) (winobj : WindowObject F)
    (r : Nat → Int) (initial_mean_supplied : Bool) :
    Except KmeansError (Option (Nat → Int)) :=
  let x := (winobj.row winobj.curpos).arg0
  match DatumGetArrayTypeP x with
  | .error e => .error e
  | .ok v =>
    match KMEANS_CHECK_V x (ARR_DIMS v 0) with
    | .error e => .error e
    | .ok x =>
      let dim := ARR_DIMS x 0
      let k := (winobj.row winobj.curpos).arg1
      let N := winobj.rowcount
      match assemble winobj dim N with
      | .error e => .error e
      | .ok (inputs, maxlist, minlist) =>
        let mean : Except KmeansError (Int → F) :=
          if initial_mean_supplied = true then
            supplied_mean (winobj.row winobj.curpos).arg2 k dim (fun _ => 0)
          else
            .ok (derived_mean maxlist minlist dim k.toNat (fun _ => 0))
        match mean with
        | .error e => .error e
        | .ok mean =>
          .ok ((calc_kmeans sqrt inputs dim N k.toNat fuel mean r).map Prod.snd)

/-- `kmeans_impl` (kmeans.c 187-274): the partition-local memory after the call
and how the call ended.  A call stopped before `calc_kmeans` leaves before
`isdone` is set. -/
def kmeans_impl (sqrt : F → F) (fuel : Nat) (winobj : WindowObject F)
    (context : kmeans_context) (initial_mean_supplied : Bool) :
    kmeans_context × Outcome :=
  if context.isdone = false then
    match kmeans_run sqrt fuel winobj context.result initial_mean_supplied with
    | .error e => (context, .error e)
    | .ok none => (context, .out_of_fuel)
    | .ok (some r) =>
      let context : kmeans_context := { isdone := true, result := r }
      (context, .label (context.result winobj.curpos))
  else (context, .label (context.result winobj.curpos))

/-- `kmeans_with_init` (kmeans.c 276-280). -/
def kmeans_with_init (sqrt : F → F) (fuel : Nat) (winobj : WindowObject F)
    (context : kmeans_context) : kmeans_context × Outcome :=
  kmeans_impl sqrt fuel winobj context true

/-- `kmeans` (kmeans.c 282-286). -/
def kmeans (sqrt : F → F) (fuel : Nat) (winobj : WindowObject F)
    (context : kmeans_context) : kmeans_context × Outcome :=
  kmeans_impl sqrt fuel winobj context false

/-- Coordinate `a` of the vector stored at row `i` of the partition (`0` for a
NULL row). -/
def row_vector (winobj : WindowObject F) (i a : Nat) : F :=
  match (winobj.row i).arg0 with
  | some x => ARR_DATA_PTR x a
  | none => 0

/-- A row value that is a vector of length `dim`: not NULL, one-dimensional,
of length `dim`, without NULL element. -/
def valid_vector (v : Option (ArrayType F)) (dim : Nat) : Prop :=
  ∃ x, v = some x ∧ x.dims = [dim] ∧ x.hasnull = false

/-- Supplied initial mean vectors as the specification asks for them: present,
without missing element, and shaped either as `k` groups of `dim` elements or
as a flat sequence of `k * dim` elements. -/
def valid_initial_mean (init : Option (ArrayType F)) (k : Int) (dim : Nat) : Prop :=
  ∃ a, init = some a ∧ a.hasnull = false ∧
    (a.dims.map Int.ofNat = [k, (dim : Int)] ∨
     a.dims.map Int.ofNat = [k * (dim : Int)])

end Impl

/-! ## Concrete inputs -/

section Examples

variable {F : Type} [LinearOrderedField F]

/-- The one-dimensional vector `[x]`. -/
def vector1 (x : F) : ArrayType F :=
  { dims := [1], hasnull := false, data := [x] }

/-- The matrix of the rows `[1], [2], [9], [10]` (`dim = 1`, `N = 4`). -/
def scenario_inputs : Nat → F :=
  fun j => if j = 0 then 1 else if j = 1 then 2 else if j = 2 then 9
    else if j = 3 then 10 else 0

/-- The centroids `[11/2], [10]` (`dim = 1`, `k = 2`). -/
def scenario_mean : Int → F :=
  fun j => if j = 0 then 11 / 2 else if j = 1 then 10 else 0

/-- A partition of the four rows `[1], [2], [9], [10]` with `k = 2` and no
initial mean vectors, queried at position `curpos`. -/
def scenario_window (curpos : Nat) : WindowObject F :=
  { row := fun i =>
      { arg0 := some (vector1 (scenario_inputs i)), arg1 := 2, arg2 := none }
    rowcount := 4
    curpos := curpos }

/-- The matrix of the rows `[0], [1]` (`dim = 1`, `N = 2`). -/
def two_rows_inputs : Nat → F :=
  fun j => if j = 1 then 1 else 0

/-- The centroids `[0], [2]` (`dim = 1`, `k = 2`). -/
def two_rows_mean : Int → F :=
  fun j => if j = 1 then 2 else 0

/-- A partition of the two rows `[0], [1]` with the arguments `k` and `init`,
queried at position `curpos`. -/
def two_rows_window (k : Int) (init : Option (ArrayType F)) (curpos : Nat) :
    WindowObject F :=
  { row := fun i =>
      { arg0 := some (vector1 (two_rows_inputs i)), arg1 := k, arg2 := init }
    rowcount := 2
    curpos := curpos }

/-- A partition of the single row `[x]` with `k = 1` and the argument `init`. -/
def single_row_window (x : F) (init : Option (ArrayType F)) : WindowObject F :=
  { row := fun _ => { arg0 := some (vector1 x), arg1 := 1, arg2 := init }
    rowcount := 1
    curpos := 0 }

/-- A partition of the rows `[0]` and `[1, 2]` (the second vector is too long)
with `k = 3` and a `2 × 1` structure as initial mean vectors. -/
def ragged_window : WindowObject F :=
  { row := fun i =>
      { arg0 := if i = 0 then some (vector1 0)
          else some { dims := [2], hasnull := false, data := [1, 2] }
        arg1 := 3
        arg2 := some { dims := [2, 1], hasnull := false, data := [0, 1] } }
    rowcount := 2
    curpos := 0 }

/-- The matrix of the single row `[0]` (`dim = 1`, `N = 1`). -/
def origin_inputs : Nat → F :=
  fun _ => 0

/-- The centroid `[1]` (`dim = 1`, `k = 1`). -/
def unit_mean : Int → F :=
  fun _ => 1

/-- A partition-local memory that is marked done and stores the labels
`0, 0, 1, 1, ...`. -/
def done_context : kmeans_context :=
  { isdone := true, result := fun i => if i < 2 then 0 else 1 }

/-- A two-level structure of 2 groups of 1 element: `{{0}, {1}}`. -/
def two_by_one : ArrayType F :=
  { dims := [2, 1], hasnull := false, data := [0, 1] }

/-- A partition of the rows `[0]` and NULL with `k = 2` and no initial mean
vectors, queried at position 0. -/
def null_row_window : WindowObject F :=
  { row := fun i =>
      { arg0 := if i = 0 then some (vector1 0) else none, arg1 := 2, arg2 := none }
    rowcount := 2
    curpos := 0 }

end Examples

/-! # Theorems -/

/-! ## Loops that write one cell per iteration -/

section Core

variable {F : Type} [LinearOrderedField F]

/-- A loop writing `g i` into cell `i` for `i < N` leaves exactly that. -/
theorem foldl_update_range {β : Type} (g : Nat → β) (N : Nat) (r : Nat → β) (j : Nat) :
    (List.range N).foldl (fun r (i : Nat) => Function.update r i (g i)) r j
      = if j < N then g j else r j := by
  induction N with
  | zero => simp
  | succ n ih =>
    rw [List.range_succ, List.foldl_append]
    simp only [List.foldl_cons, List.foldl_nil]
    by_cases hj : j = n
    · subst hj; simp
    · rw [Function.update_noteq hj, ih]
      have : (j < n + 1) ↔ (j < n) := by omega
      simp [this]

/-- The scan of `update_r` ends on the first index of a least distance. -/
theorem update_r_search_spec (sqrt : F → F) (inputs : Nat → F) (dim : Nat)
    (mean : Int → F) (i : Nat) :
    ∀ k : Nat, 1 ≤ k → ∃ c : Nat, c < k ∧
      update_r_search sqrt inputs dim k mean i
        = (row_dist sqrt inputs dim mean i c, (c : Int)) ∧
      (∀ c2, c2 < k → row_dist sqrt inputs dim mean i c ≤ row_dist sqrt inputs dim mean i c2) ∧
      (∀ c2, c2 < c → row_dist sqrt inputs dim mean i c < row_dist sqrt inputs dim mean i c2) := by
  intro k hk
  induction k with
  | zero => omega
  | succ n ih =>
    rcases Nat.eq_zero_or_pos n with h0 | hpos
    · subst h0
      refine ⟨0, by omega, ?_, ?_, ?_⟩
      · simp [update_r_search, row_dist, List.range_succ]
      · intro c2 hc2
        have : c2 = 0 := by omega
        subst this; exact le_refl _
      · intro c2 hc2; omega
    · obtain ⟨c, hc, hval, hmin, hfirst⟩ := ih hpos
      have hstep : update_r_search sqrt inputs dim (n + 1) mean i
          = if n = 0 ∨ row_dist sqrt inputs dim mean i n
                < (update_r_search sqrt inputs dim n mean i).1
            then (row_dist sqrt inputs dim mean i n, (n : Int))
            else update_r_search sqrt inputs dim n mean i := by
        simp only [update_r_search, row_dist, List.range_succ, List.foldl_append,
          List.foldl_cons, List.foldl_nil]
      have hn0 : n ≠ 0 := by omega
      rw [hval] at hstep
      simp only [hn0, false_or] at hstep
      by_cases hlt : row_dist sqrt inputs dim mean i n < row_dist sqrt inputs dim mean i c
      · rw [if_pos hlt] at hstep
        refine ⟨n, by omega, hstep, ?_, ?_⟩
        · intro c2 hc2
          rcases Nat.lt_succ_iff_lt_or_eq.mp hc2 with h | h
          · exact le_of_lt (lt_of_lt_of_le hlt (hmin c2 h))
          · subst h; exact le_refl _
        · intro c2 hc2
          exact lt_of_lt_of_le hlt (hmin c2 hc2)
      · rw [if_neg hlt] at hstep
        refine ⟨c, by omega, hstep, ?_, hfirst⟩
        intro c2 hc2
        rcases Nat.lt_succ_iff_lt_or_eq.mp hc2 with h | h
        · exact hmin c2 h
        · subst h; exact not_lt.mp hlt

/-- Cell `i < N` of the vector written by `update_r` is the result of the scan
for row `i`; the other cells keep their value. -/
theorem update_r_apply (sqrt : F → F) (inputs : Nat → F) (dim N k : Nat)
    (mean : Int → F) (r : Nat → Int) (i : Nat) :
    update_r sqrt inputs dim N k mean r i
      = if i < N then (update_r_search sqrt inputs dim k mean i).2 else r i := by
  unfold update_r
  exact foldl_update_range (fun i => (update_r_search sqrt inputs dim k mean i).2) N r i

/-- C1. Assignment: for every `N`, `dim`, `k ≥ 1`, input matrix, centroid set
and row `i < N`, the label that `update_r` writes into `r[i]` is a centroid
index `c < k` whose distance to row `i` is least among the centroids
`0 .. k-1`, and every centroid with a smaller index is strictly farther. -/
theorem update_r_argmin_lowest_index (sqrt : F → F) (inputs : Nat → F)
    (dim N k : Nat) (mean : Int → F) (r : Nat → Int) (i : Nat)
    (hk : 1 ≤ k) (hi : i < N) :
    ∃ c : Nat, c < k ∧ update_r sqrt inputs dim N k mean r i = (c : Int) ∧
      (∀ c2, c2 < k →
        calc_distance sqrt (fun a => inputs (i * dim + a))
            (fun a => mean ((c : Int) * dim + a)) dim
          ≤ calc_distance sqrt (fun a => inputs (i * dim + a))
            (fun a => mean ((c2 : Int) * dim + a)) dim) ∧
      (∀ c2, c2 < c →
        calc_distance sqrt (fun a => inputs (i * dim + a))
            (fun a => mean ((c : Int) * dim + a)) dim
          < calc_distance sqrt (fun a => inputs (i * dim + a))
            (fun a => mean ((c2 : Int) * dim + a)) dim) := by
  obtain ⟨c, hc, hval, hmin, hfirst⟩ := update_r_search_spec sqrt inputs dim mean i k hk
  refine ⟨c, hc, ?_, hmin, hfirst⟩
  rw [update_r_apply, if_pos hi, hval]

/-- A loop writing `v a` into cell `base + a` for `a < m`. -/
theorem foldl_update_block {β : Type} (base : Int) (v : Nat → β) (m : Nat)
    (mem : Int → β) (j : Int) :
    (List.range m).foldl
        (fun (mem : Int → β) (a : Nat) => Function.update mem (base + a) (v a)) mem j
      = if base ≤ j ∧ j < base + m then v (j - base).toNat else mem j := by
  induction m with
  | zero =>
    have : ¬ (base ≤ j ∧ j < base) := by omega
    simp [this]
  | succ n ih =>
    rw [List.range_succ, List.foldl_append]
    simp only [List.foldl_cons, List.foldl_nil]
    by_cases hj : j = base + n
    · subst hj
      have h1 : base ≤ base + (n : Int) ∧ base + (n : Int) < base + ((n + 1 : Nat) : Int) := by
        omega
      simp [h1]
    · rw [Function.update_noteq hj, ih]
      have : (base ≤ j ∧ j < base + ((n + 1 : Nat) : Int)) ↔ (base ≤ j ∧ j < base + (n : Int)) := by
        omega
      simp only [this]

/-- A loop adding `x a` to cell `base + a` for `a < m`. -/
theorem foldl_add_block (base : Int) (x : Nat → F) (m : Nat)
    (mem : Int → F) (j : Int) :
    (List.range m).foldl
        (fun (ms : Int → F) (a : Nat) =>
          Function.update ms (base + a) (ms (base + a) + x a)) mem j
      = if base ≤ j ∧ j < base + m then mem j + x (j - base).toNat else mem j := by
  induction m generalizing j with
  | zero =>
    have : ¬ (base ≤ j ∧ j < base) := by omega
    simp [this]
  | succ n ih =>
    rw [List.range_succ, List.foldl_append]
    simp only [List.foldl_cons, List.foldl_nil]
    by_cases hj : j = base + n
    · subst hj
      have h1 : base ≤ base + (n : Int) ∧ base + (n : Int) < base + ((n + 1 : Nat) : Int) := by
        omega
      have h2 : ¬ (base ≤ base + (n : Int) ∧ base + (n : Int) < base + (n : Int)) := by omega
      rw [Function.update_same, if_pos h1]
      have ih2 := ih (base + n)
      rw [if_neg h2] at ih2
      rw [ih2]
      simp
    · rw [Function.update_noteq hj, ih]
      have : (base ≤ j ∧ j < base + ((n + 1 : Nat) : Int)) ↔ (base ≤ j ∧ j < base + (n : Int)) := by
        omega
      simp only [this]

/-- Cell `c * dim + a` with `a < dim` lies in the block of class `klass` only
when `klass = c`. -/
theorem block_index_iff (dim : Nat) (klass c : Int) (a : Nat) (ha : a < dim) :
    (klass * dim ≤ c * dim + a ∧ c * dim + a < klass * dim + dim) ↔ klass = c := by
  constructor
  · rintro ⟨h1, h2⟩
    by_contra hne
    rcases lt_or_gt_of_ne hne with h | h
    · have h3 : (klass + 1) * (dim : Int) ≤ c * dim :=
        mul_le_mul_of_nonneg_right (by omega) (by omega)
      have h4 : (klass + 1) * (dim : Int) = klass * dim + dim := by ring
      omega
    · have h3 : (c + 1) * (dim : Int) ≤ klass * dim :=
        mul_le_mul_of_nonneg_right (by omega) (by omega)
      have h4 : (c + 1) * (dim : Int) = c * dim + dim := by ring
      omega
  · rintro rfl
    omega

/-- One more row in the accumulation loop of `update_mean`. -/
theorem update_mean_sums_succ (inputs : Nat → F) (dim n : Nat) (r : Nat → Int) :
    update_mean_sums inputs dim (n + 1) r
      = ((List.range dim).foldl
          (fun (ms : Int → F) (a : Nat) =>
            Function.update ms (r n * dim + a)
              (ms (r n * dim + a) + inputs (n * dim + a)))
          (update_mean_sums inputs dim n r).1,
         Function.update (update_mean_sums inputs dim n r).2 (r n)
          ((update_mean_sums inputs dim n r).2 (r n) + 1)) := by
  simp only [update_mean_sums, List.range_succ, List.foldl_append, List.foldl_cons,
    List.foldl_nil]

/-- After the accumulation loop, `mean_sum[c * dim + a]` is the sum of
coordinate `a` over the rows labelled `c`. -/
theorem update_mean_sums_fst (inputs : Nat → F) (dim : Nat) (r : Nat → Int)
    (c : Int) (a : Nat) (ha : a < dim) (N : Nat) :
    (update_mean_sums inputs dim N r).1 (c * dim + a)
      = ∑ i in (Finset.range N).filter (fun i => r i = c), inputs (i * dim + a) := by
  induction N with
  | zero => simp [update_mean_sums]
  | succ n ih =>
    rw [update_mean_sums_succ]
    simp only
    rw [foldl_add_block (r n * dim) (fun a => inputs (n * dim + a)) dim, ih,
      Finset.range_succ, Finset.filter_insert]
    by_cases h : r n = c
    · have hb : r n * (dim : Int) ≤ c * dim + a ∧ c * dim + a < r n * dim + dim :=
        (block_index_iff dim (r n) c a ha).mpr h
      have hnot : n ∉ (Finset.range n).filter (fun i => r i = c) := by simp
      rw [if_pos hb, if_pos h, Finset.sum_insert hnot]
      have : (c * (dim : Int) + a - r n * dim).toNat = a := by
        rw [h]; simp
      rw [this, add_comm]
    · have hb : ¬ (r n * (dim : Int) ≤ c * dim + a ∧ c * dim + a < r n * dim + dim) :=
        fun hh => h ((block_index_iff dim (r n) c a ha).mp hh)
      rw [if_neg hb, if_neg h]

/-- After the accumulation loop, `mean_count[c]` is the number of rows
labelled `c`. -/
theorem update_mean_sums_snd (inputs : Nat → F) (dim : Nat) (r : Nat → Int)
    (c : Int) (N : Nat) :
    (update_mean_sums inputs dim N r).2 c
      = (((Finset.range N).filter (fun i => r i = c)).card : Int) := by
  induction N with
  | zero => simp [update_mean_sums]
  | succ n ih =>
    rw [update_mean_sums_succ]
    simp only
    rw [Finset.range_succ, Finset.filter_insert]
    by_cases h : r n = c
    · have hnot : n ∉ (Finset.range n).filter (fun i => r i = c) := by simp
      rw [if_pos h, Finset.card_insert_of_not_mem hnot, h, Function.update_same, ih]
      push_cast; ring
    · rw [if_neg h, Function.update_noteq (Ne.symm h), ih]

/-- A nest of loops writing `v klass a` into cell `klass * dim + a`. -/
theorem foldl_blocks {β : Type} (dim : Nat) (v : Nat → Nat → β) (c a : Nat) (ha : a < dim)
    (k : Nat) (hc : c < k) (mem : Int → β) :
    (List.range k).foldl
        (fun (mem : Int → β) (klass : Nat) =>
          (List.range dim).foldl
            (fun (mem : Int → β) (a : Nat) =>
              Function.update mem ((klass : Int) * dim + a) (v klass a)) mem)
        mem ((c : Int) * dim + a)
      = v c a := by
  induction k with
  | zero => omega
  | succ n ih =>
    rw [List.range_succ, List.foldl_append]
    simp only [List.foldl_cons, List.foldl_nil]
    rw [foldl_update_block ((n : Int) * dim) (v n) dim]
    by_cases h : c = n
    · subst h
      have hb : (c : Int) * (dim : Int) ≤ c * dim + a ∧ (c : Int) * dim + a < c * dim + dim :=
        (block_index_iff dim c c a ha).mpr rfl
      rw [if_pos hb]
      have : ((c : Int) * (dim : Int) + a - c * dim).toNat = a := by simp
      rw [this]
    · have hne : ((n : Int)) ≠ (c : Int) := by omega
      have hb : ¬ ((n : Int) * (dim : Int) ≤ c * dim + a ∧ (c : Int) * dim + a < n * dim + dim) :=
        fun hh => hne ((block_index_iff dim n c a ha).mp hh)
      rw [if_neg hb]
      exact ih (by omega)

/-- Cell `c * dim + a` of the centroid set written by `update_mean`, in terms
of the accumulated sum and count. -/
theorem update_mean_cell (inputs : Nat → F) (dim N k : Nat) (mean : Int → F)
    (r : Nat → Int) (c a : Nat) (hc : c < k) (ha : a < dim) :
    update_mean inputs dim N k mean r ((c : Int) * dim + a)
      = if (update_mean_sums inputs dim N r).2 (c : Int) > 0 then
          (update_mean_sums inputs dim N r).1 ((c : Int) * dim + a)
            / (((update_mean_sums inputs dim N r).2 (c : Int) : Int) : F)
        else 0 := by
  have hform : update_mean inputs dim N k mean r
      = (List.range k).foldl
        (fun (mem : Int → F) (klass : Nat) =>
          (List.range dim).foldl
            (fun (mem : Int → F) (a : Nat) =>
              Function.update mem ((klass : Int) * dim + a)
                (if (update_mean_sums inputs dim N r).2 (klass : Int) > 0 then
                  (update_mean_sums inputs dim N r).1 ((klass : Int) * dim + a)
                    / (((update_mean_sums inputs dim N r).2 (klass : Int) : Int) : F)
                else 0)) mem)
        mean := by
    unfold update_mean
    simp only
    congr 1
    funext mem klass
    congr 1
    funext mem a
    split <;> rfl
  rw [hform]
  exact foldl_blocks dim
    (fun klass a => if (update_mean_sums inputs dim N r).2 (klass : Int) > 0 then
        (update_mean_sums inputs dim N r).1 ((klass : Int) * dim + a)
          / (((update_mean_sums inputs dim N r).2 (klass : Int) : Int) : F)
      else 0) c a ha k hc mean

/-- Cell `c * dim + a` of the centroid set written by `update_mean`, with sum
and count spelled out as sums over all rows. -/
theorem update_mean_cell_sum (inputs : Nat → F) (dim N k : Nat) (mean : Int → F)
    (r : Nat → Int) (c a : Nat) (hc : c < k) (ha : a < dim) :
    update_mean inputs dim N k mean r ((c : Int) * dim + a)
      = if (∑ i in Finset.range N, if r i = (c : Int) then (1 : Int) else 0) > 0 then
          (∑ i in Finset.range N, if r i = (c : Int) then inputs (i * dim + a) else 0)
            / (((∑ i in Finset.range N, if r i = (c : Int) then (1 : Int) else 0) : Int) : F)
        else 0 := by
  rw [update_mean_cell inputs dim N k mean r c a hc ha, update_mean_sums_snd,
    update_mean_sums_fst inputs dim r c a ha, Finset.sum_filter, Finset.card_filter]
  push_cast
  rfl

/-- C2. CentroidUpdate: for every input matrix and every assignment vector `r`
with entries in `[0, k)`, after `update_mean` every centroid `c < k` and
dimension `a < dim` satisfy: if at least one row is labelled `c`, then
`mean[c][a]` is the sum of `inputs[i][a]` over exactly the rows `i < N` with
`r[i] = c`, divided by the number of these rows; if no row is labelled `c`,
then `mean[c][a] = 0`, whatever the previous centroid was. -/
theorem update_mean_is_class_mean (inputs : Nat → F) (dim N k : Nat) (mean : Int → F)
    (r : Nat → Int) (hr : ∀ i, i < N → 0 ≤ r i ∧ r i < k)
    (c a : Nat) (hc : c < k) (ha : a < dim) :
    (((Finset.range N).filter (fun i => r i = (c : Int))).Nonempty →
      update_mean inputs dim N k mean r ((c : Int) * dim + a)
        = (∑ i in (Finset.range N).filter (fun i => r i = (c : Int)), inputs (i * dim + a))
          / (((Finset.range N).filter (fun i => r i = (c : Int))).card : F)) ∧
    ((Finset.range N).filter (fun i => r i = (c : Int)) = ∅ →
      update_mean inputs dim N k mean r ((c : Int) * dim + a) = 0) := by
  have _ := hr
  rw [update_mean_cell inputs dim N k mean r c a hc ha, update_mean_sums_snd,
    update_mean_sums_fst inputs dim r c a ha]
  constructor
  · intro hne
    have hpos : 0 < ((Finset.range N).filter (fun i => r i = (c : Int))).card :=
      Finset.card_pos.mpr hne
    have hpos2 : ((((Finset.range N).filter (fun i => r i = (c : Int))).card : Int)) > 0 := by
      exact_mod_cast hpos
    rw [if_pos hpos2]
    push_cast
    rfl
  · intro hemp
    rw [hemp]
    simp

/-! ## The convergence loop -/

/-- One unfolding of the loop of `calc_kmeans`. -/
theorem calc_kmeans_loop_succ (sqrt : F → F) (inputs : Nat → F) (dim N k fuel : Nat)
    (target : F) (mean : Int → F) (r : Nat → Int) :
    calc_kmeans_loop sqrt inputs dim N k (fuel + 1) target mean r
      = if target - J sqrt inputs dim N
            (update_mean inputs dim N k mean (update_r sqrt inputs dim N k mean r))
            (update_r sqrt inputs dim N k mean r) < 1 / 100
        then some (update_mean inputs dim N k mean (update_r sqrt inputs dim N k mean r),
          update_r sqrt inputs dim N k mean r)
        else calc_kmeans_loop sqrt inputs dim N k fuel
          (J sqrt inputs dim N
            (update_mean inputs dim N k mean (update_r sqrt inputs dim N k mean r))
            (update_r sqrt inputs dim N k mean r))
          (update_mean inputs dim N k mean (update_r sqrt inputs dim N k mean r))
          (update_r sqrt inputs dim N k mean r) := by
  simp only [calc_kmeans_loop]

/-- More fuel does not change a result already reached. -/
theorem calc_kmeans_loop_mono (sqrt : F → F) (inputs : Nat → F) (dim N k : Nat)
    (res : (Int → F) × (Nat → Int)) :
    ∀ (fuel : Nat) (target : F) (mean : Int → F) (r : Nat → Int),
      calc_kmeans_loop sqrt inputs dim N k fuel target mean r = some res →
      ∀ fuel2, fuel ≤ fuel2 →
        calc_kmeans_loop sqrt inputs dim N k fuel2 target mean r = some res := by
  intro fuel
  induction fuel with
  | zero => intro target mean r h; simp [calc_kmeans_loop] at h
  | succ n ih =>
    intro target mean r h fuel2 hle
    obtain ⟨m, rfl⟩ : ∃ m, fuel2 = m + 1 := ⟨fuel2 - 1, by omega⟩
    rw [calc_kmeans_loop_succ] at h ⊢
    split
    · rename_i hlt
      rw [if_pos hlt] at h
      exact h
    · rename_i hlt
      rw [if_neg hlt] at h
      exact ih _ _ _ h m (by omega)

/-- Whatever the loop returns was produced by a pass: the labels are those
`update_r` computed from the centroid set at the start of the last pass, and
the centroids are those `update_mean` computed from these labels. -/
theorem calc_kmeans_loop_last_pass (sqrt : F → F) (inputs : Nat → F) (dim N k : Nat)
    (res : (Int → F) × (Nat → Int)) :
    ∀ (fuel : Nat) (target : F) (mean : Int → F) (r : Nat → Int),
      calc_kmeans_loop sqrt inputs dim N k fuel target mean r = some res →
      ∃ (mean0 : Int → F) (r0 : Nat → Int),
        res.2 = update_r sqrt inputs dim N k mean0 r0 ∧
        res.1 = update_mean inputs dim N k mean0 res.2 := by
  intro fuel
  induction fuel with
  | zero => intro target mean r h; simp [calc_kmeans_loop] at h
  | succ n ih =>
    intro target mean r h
    rw [calc_kmeans_loop_succ] at h
    split at h
    · refine ⟨mean, r, ?_, ?_⟩
      · rw [← Option.some.inj h]
      · rw [← Option.some.inj h]
    · exact ih _ _ _ h

/-- The objective is a sum of square roots, hence not negative. -/
theorem J_nonneg (sqrt : F → F) (hs : ∀ x, 0 ≤ sqrt x) (inputs : Nat → F) (dim N : Nat)
    (mean : Int → F) (r : Nat → Int) : 0 ≤ J sqrt inputs dim N mean r := by
  unfold J
  induction N with
  | zero => simp
  | succ n ih =>
    rw [List.range_succ, List.foldl_append]
    simp only [List.foldl_cons, List.foldl_nil]
    exact add_nonneg ih (hs _)

/-- With a non-negative square root the loop stops within `fuel + 1` passes as
soon as `target < (fuel + 1) * 0.01`. -/
theorem calc_kmeans_loop_terminates (sqrt : F → F) (hs : ∀ x, 0 ≤ sqrt x)
    (inputs : Nat → F) (dim N k : Nat) :
    ∀ (fuel : Nat) (target : F) (mean : Int → F) (r : Nat → Int),
      target < ((fuel : F) + 1) * (1 / 100) →
      ∃ res, calc_kmeans_loop sqrt inputs dim N k (fuel + 1) target mean r = some res := by
  intro fuel
  induction fuel with
  | zero =>
    intro target mean r h
    have hJ := J_nonneg sqrt hs inputs dim N
      (update_mean inputs dim N k mean (update_r sqrt inputs dim N k mean r))
      (update_r sqrt inputs dim N k mean r)
    rw [calc_kmeans_loop_succ, if_pos]
    · exact ⟨_, rfl⟩
    · push_cast at h
      linarith
  | succ n ih =>
    intro target mean r h
    rw [calc_kmeans_loop_succ]
    split
    · exact ⟨_, rfl⟩
    · rename_i hlt
      apply ih
      have hJ := J_nonneg sqrt hs inputs dim N
        (update_mean inputs dim N k mean (update_r sqrt inputs dim N k mean r))
        (update_r sqrt inputs dim N k mean r)
      push_cast at h
      linarith

/-- Every label `update_r` writes is a centroid index. -/
theorem update_r_range (sqrt : F → F) (inputs : Nat → F) (dim N k : Nat)
    (mean : Int → F) (r : Nat → Int) (hk : 1 ≤ k) (i : Nat) (hi : i < N) :
    0 ≤ update_r sqrt inputs dim N k mean r i ∧
      update_r sqrt inputs dim N k mean r i < k := by
  obtain ⟨c, hc, hval, -, -⟩ := update_r_search_spec sqrt inputs dim mean i k hk
  rw [update_r_apply, if_pos hi, hval]
  simp only
  constructor
  · exact Int.natCast_nonneg c
  · exact_mod_cast hc

end Core

/-- In one dimension the distance is the absolute difference, written as a
maximum. -/
theorem calc_distance_one (v1 v2 : Nat → ℝ) :
    calc_distance Real.sqrt v1 v2 1 = max (v1 0 - v2 0) (-(v1 0 - v2 0)) := by
  simp [calc_distance, List.range_succ, Real.sqrt_mul_self_eq_abs, abs_eq_max_neg]

/-- Over the reals `calc_kmeans` returns once the fuel exceeds
`⌊J_0 / 0.01⌋`, where `J_0` is the objective computed before the loop. -/
theorem calc_kmeans_returns (inputs : Nat → ℝ) (dim N k : Nat) (mean : Int → ℝ)
    (r : Nat → Int) :
    ∃ res, ∀ fuel, ⌊J Real.sqrt inputs dim N mean r / (1 / 100)⌋₊ + 1 ≤ fuel →
      calc_kmeans Real.sqrt inputs dim N k fuel mean r = some res := by
  have hlt : J Real.sqrt inputs dim N mean r
      < (((⌊J Real.sqrt inputs dim N mean r / (1 / 100)⌋₊ : Nat) : ℝ) + 1) * (1 / 100) := by
    have h1 := Nat.lt_floor_add_one (J Real.sqrt inputs dim N mean r / (1 / 100))
    have h2 : (0 : ℝ) < 1 / 100 := by norm_num
    exact (div_lt_iff₀ h2).mp h1
  obtain ⟨res, hres⟩ := calc_kmeans_loop_terminates Real.sqrt Real.sqrt_nonneg inputs dim N k
    _ _ mean r hlt
  exact ⟨res, fun fuel hf =>
    calc_kmeans_loop_mono Real.sqrt inputs dim N k res _ _ mean r hres fuel hf⟩

/-- C3. Label range: for every input matrix, every `k ≥ 1` (any `N`, any
`dim`), every initial centroid set and every initial content of `r`,
`calc_kmeans` over the reals returns (for every fuel above
`⌊J_0 / 0.01⌋`), and every entry `i < N` of the returned assignment vector is
an integer `l` with `0 ≤ l < k`. -/
theorem calc_kmeans_labels_in_range (inputs : Nat → ℝ) (dim N k : Nat) (mean : Int → ℝ)
    (r : Nat → Int) (hk : 1 ≤ k) :
    ∃ res, (∀ fuel, ⌊J Real.sqrt inputs dim N mean r / (1 / 100)⌋₊ + 1 ≤ fuel →
        calc_kmeans Real.sqrt inputs dim N k fuel mean r = some res) ∧
      ∀ i, i < N → 0 ≤ res.2 i ∧ res.2 i < k := by
  obtain ⟨res, hres⟩ := calc_kmeans_returns inputs dim N k mean r
  refine ⟨res, hres, ?_⟩
  intro i hi
  obtain ⟨mean0, r0, h2, -⟩ := calc_kmeans_loop_last_pass Real.sqrt inputs dim N k res _ _ mean r
    (hres _ (le_refl _))
  rw [h2]
  exact update_r_range Real.sqrt inputs dim N k mean0 r0 hk i hi

/-! ## Concrete runs -/

/-- On the rows `[0], [1]` both rows are nearest to the centroid `[0]`. -/
theorem two_rows_update_r (i : Nat) :
    update_r Real.sqrt two_rows_inputs 1 2 2 two_rows_mean (fun _ => 0) i = 0 := by
  rw [update_r_apply]
  split
  · rename_i h
    interval_cases i <;>
      norm_num [update_r_search, List.range_succ, calc_distance_one, two_rows_inputs,
        two_rows_mean, max_def]
  · rfl

/-- The objective before the loop on the rows `[0], [1]`. -/
theorem two_rows_J0 :
    J Real.sqrt two_rows_inputs 1 2 two_rows_mean (fun _ => 0) = 1 := by
  norm_num [J, List.range_succ, calc_distance_one, two_rows_inputs, two_rows_mean, max_def]

/-- Centroid 0 becomes the mean `1/2` of both rows. -/
theorem two_rows_update_mean_0 (mean : Int → ℝ) (r : Nat → Int) (h0 : r 0 = 0) (h1 : r 1 = 0) :
    update_mean (two_rows_inputs : Nat → ℝ) 1 2 2 mean r 0 = 1 / 2 := by
  have h := update_mean_cell_sum (two_rows_inputs : Nat → ℝ) 1 2 2 mean r 0 0
    (by decide) (by decide)
  simp only [Nat.cast_zero, zero_mul, zero_add, Nat.cast_one, mul_one, add_zero] at h
  rw [h]
  simp only [Finset.sum_range_succ, Finset.sum_range_zero, h0, h1, two_rows_inputs]
  norm_num

/-- Centroid 1 has no row and is reset to `0`. -/
theorem two_rows_update_mean_1 (mean : Int → ℝ) (r : Nat → Int) (h0 : r 0 = 0) (h1 : r 1 = 0) :
    update_mean (two_rows_inputs : Nat → ℝ) 1 2 2 mean r 1 = 0 := by
  have h := update_mean_cell_sum (two_rows_inputs : Nat → ℝ) 1 2 2 mean r 1 0
    (by decide) (by decide)
  simp only [Nat.cast_zero, zero_mul, zero_add, Nat.cast_one, mul_one, add_zero, one_mul] at h
  rw [h]
  simp only [Finset.sum_range_succ, Finset.sum_range_zero, h0, h1, two_rows_inputs]
  norm_num

/-- The run on the rows `[0], [1]` from the centroids `[0], [2]` leaves the loop
in its first pass. -/
theorem two_rows_run :
    calc_kmeans Real.sqrt two_rows_inputs 1 2 2 1 two_rows_mean (fun _ => 0)
      = some (update_mean two_rows_inputs 1 2 2 two_rows_mean (fun _ => 0), fun _ => 0) := by
  have hr : update_r Real.sqrt two_rows_inputs 1 2 2 two_rows_mean (fun _ => 0)
      = fun _ => 0 := funext two_rows_update_r
  have hm0 := two_rows_update_mean_0 two_rows_mean (fun _ => 0) rfl rfl
  have hJ1 : J Real.sqrt two_rows_inputs 1 2
      (update_mean two_rows_inputs 1 2 2 two_rows_mean (fun _ => 0)) (fun _ => 0) = 1 := by
    norm_num [J, List.range_succ, calc_distance_one, two_rows_inputs, hm0, max_def]
  rw [calc_kmeans, calc_kmeans_loop_succ, hr, two_rows_J0, hJ1, if_pos (by norm_num)]

/-- The four cells of a matrix that holds the rows `[1], [2], [9], [10]`. -/
theorem scenario_cells (inputs : Nat → ℝ) (hin : ∀ i, i < 4 → inputs i = scenario_inputs i) :
    inputs 0 = 1 ∧ inputs 1 = 2 ∧ inputs 2 = 9 ∧ inputs 3 = 10 := by
  refine ⟨?_, ?_, ?_, ?_⟩
  · rw [hin 0 (by decide)]; simp [scenario_inputs]
  · rw [hin 1 (by decide)]; simp [scenario_inputs]
  · rw [hin 2 (by decide)]; simp [scenario_inputs]
  · rw [hin 3 (by decide)]; simp [scenario_inputs]

/-- Labels of the four scenario rows for the centroids `11/2, 10` and for the
centroids `3/2, 19/2`. -/
theorem scenario_update_r (inputs : Nat → ℝ) (hin : ∀ i, i < 4 → inputs i = scenario_inputs i)
    (mean : Int → ℝ) (m0 m1 : ℝ) (h0 : mean 0 = m0) (h1 : mean 1 = m1)
    (hm : (m0 = 11 / 2 ∧ m1 = 10) ∨ (m0 = 3 / 2 ∧ m1 = 19 / 2))
    (r : Nat → Int) (i : Nat) (hi : i < 4) :
    update_r Real.sqrt inputs 1 4 2 mean r i = if i < 2 then 0 else 1 := by
  obtain ⟨i0, i1, i2, i3⟩ := scenario_cells inputs hin
  rw [update_r_apply, if_pos hi]
  rcases hm with ⟨rfl, rfl⟩ | ⟨rfl, rfl⟩ <;> interval_cases i <;>
    norm_num [update_r_search, List.range_succ, calc_distance_one, i0, i1, i2, i3, h0, h1,
      max_def]

/-- The centroids `update_mean` computes from the labels `0, 0, 1, 1`. -/
theorem scenario_update_mean (inputs : Nat → ℝ)
    (hin : ∀ i, i < 4 → inputs i = scenario_inputs i) (mean : Int → ℝ) (r : Nat → Int)
    (hr : ∀ i, i < 4 → r i = if i < 2 then 0 else 1) :
    update_mean inputs 1 4 2 mean r 0 = 3 / 2 ∧
    update_mean inputs 1 4 2 mean r 1 = 19 / 2 := by
  obtain ⟨i0, i1, i2, i3⟩ := scenario_cells inputs hin
  have r0 : r 0 = 0 := by simpa using hr 0 (by decide)
  have r1 : r 1 = 0 := by simpa using hr 1 (by decide)
  have r2 : r 2 = 1 := by simpa using hr 2 (by decide)
  have r3 : r 3 = 1 := by simpa using hr 3 (by decide)
  have h := update_mean_cell_sum inputs 1 4 2 mean r 0 0 (by decide) (by decide)
  have h' := update_mean_cell_sum inputs 1 4 2 mean r 1 0 (by decide) (by decide)
  simp only [Nat.cast_zero, zero_mul, zero_add, Nat.cast_one, mul_one, add_zero, one_mul] at h h'
  rw [h, h']
  simp only [Finset.sum_range_succ, Finset.sum_range_zero, r0, r1, r2, r3, i0, i1, i2, i3]
  norm_num

/-- The objective of the centroids `3/2, 19/2` with the labels `0, 0, 1, 1`. -/
theorem scenario_J (inputs : Nat → ℝ) (hin : ∀ i, i < 4 → inputs i = scenario_inputs i)
    (mean : Int → ℝ) (r : Nat → Int)
    (h0 : mean 0 = 3 / 2) (h1 : mean 1 = 19 / 2)
    (hr : ∀ i, i < 4 → r i = if i < 2 then 0 else 1) :
    J Real.sqrt inputs 1 4 mean r = 2 := by
  obtain ⟨i0, i1, i2, i3⟩ := scenario_cells inputs hin
  have r0 : r 0 = 0 := by simpa using hr 0 (by decide)
  have r1 : r 1 = 0 := by simpa using hr 1 (by decide)
  have r2 : r 2 = 1 := by simpa using hr 2 (by decide)
  have r3 : r 3 = 1 := by simpa using hr 3 (by decide)
  norm_num [J, List.range_succ, calc_distance_one, i0, i1, i2, i3, r0, r1, r2, r3, h0, h1,
    max_def]

/-- The run on the rows `[1], [2], [9], [10]` from the centroids `11/2, 10`:
it returns within two passes, with the labels `0, 0, 1, 1`, whatever `r`
held before. -/
theorem scenario_run (inputs : Nat → ℝ) (hin : ∀ i, i < 4 → inputs i = scenario_inputs i)
    (mean : Int → ℝ) (h0 : mean 0 = 11 / 2) (h1 : mean 1 = 10)
    (r : Nat → Int) (fuel : Nat) (hf : 2 ≤ fuel) :
    ∃ res, calc_kmeans Real.sqrt inputs 1 4 2 fuel mean r = some res ∧
      (∀ i, i < 4 → res.2 i = if i < 2 then 0 else 1) ∧
      res.1 0 = 3 / 2 ∧ res.1 1 = 19 / 2 := by
  obtain ⟨f, rfl⟩ : ∃ f, fuel = f + 2 := ⟨fuel - 2, by omega⟩
  have hr1 := scenario_update_r inputs hin mean _ _ h0 h1 (Or.inl ⟨rfl, rfl⟩) r
  have hm1 := scenario_update_mean inputs hin mean _ hr1
  have hr2 := scenario_update_r inputs hin _ _ _ hm1.1 hm1.2 (Or.inr ⟨rfl, rfl⟩)
    (update_r Real.sqrt inputs 1 4 2 mean r)
  have hm2 := scenario_update_mean inputs hin
    (update_mean inputs 1 4 2 mean (update_r Real.sqrt inputs 1 4 2 mean r))
    _ hr2
  have hJ1 := scenario_J inputs hin _ _ hm1.1 hm1.2 hr1
  have hJ2 := scenario_J inputs hin _ _ hm2.1 hm2.2 hr2
  rw [calc_kmeans, calc_kmeans_loop_succ]
  split
  · exact ⟨_, rfl, hr1, hm1.1, hm1.2⟩
  · rw [calc_kmeans_loop_succ, hJ1, hJ2, if_pos (by norm_num)]
    exact ⟨_, rfl, hr2, hm2.1, hm2.2⟩

/-! ## Claims on the core -/

/-- Witness of C1 on the rows `[1], [2], [9], [10]` with the centroids
`11/2, 10`, at row 2. -/
theorem update_r_argmin_lowest_index_witness :
    1 ≤ 2 ∧ 2 < 4 ∧
    ∃ c : Nat, c < 2 ∧
      update_r Real.sqrt scenario_inputs 1 4 2 scenario_mean (fun _ => 0) 2 = (c : Int) ∧
      (∀ c2 : Nat, c2 < 2 →
        calc_distance Real.sqrt (fun a => scenario_inputs (2 * 1 + a))
            (fun a => scenario_mean ((c : Int) * (1 : Nat) + a)) 1
          ≤ calc_distance Real.sqrt (fun a => scenario_inputs (2 * 1 + a))
            (fun a => scenario_mean ((c2 : Int) * (1 : Nat) + a)) 1) ∧
      (∀ c2 : Nat, c2 < c →
        calc_distance Real.sqrt (fun a => scenario_inputs (2 * 1 + a))
            (fun a => scenario_mean ((c : Int) * (1 : Nat) + a)) 1
          < calc_distance Real.sqrt (fun a => scenario_inputs (2 * 1 + a))
            (fun a => scenario_mean ((c2 : Int) * (1 : Nat) + a)) 1) :=
  ⟨by decide, by decide,
    update_r_argmin_lowest_index Real.sqrt scenario_inputs 1 4 2 scenario_mean (fun _ => 0) 2
      (by decide) (by decide)⟩

/-- Witness of C2 on the rows `[1], [2], [9], [10]` with the labels
`0, 0, 1, 1`, at centroid 0. -/
theorem update_mean_is_class_mean_witness :
    (∀ i, i < 4 → (0 : Int) ≤ (if i < 2 then 0 else 1) ∧
      ((if i < 2 then 0 else 1 : Int)) < (2 : Nat)) ∧ 0 < 2 ∧ 0 < 1 ∧
    ((((Finset.range 4).filter
        (fun i => (if i < 2 then 0 else 1 : Int) = ((0 : Nat) : Int))).Nonempty →
      update_mean (scenario_inputs : Nat → ℝ) 1 4 2 scenario_mean
          (fun i => if i < 2 then 0 else 1) (((0 : Nat) : Int) * (1 : Nat) + (0 : Nat))
        = (∑ i in (Finset.range 4).filter
              (fun i => (if i < 2 then 0 else 1 : Int) = ((0 : Nat) : Int)),
            scenario_inputs (i * 1 + 0))
          / (((Finset.range 4).filter
              (fun i => (if i < 2 then 0 else 1 : Int) = ((0 : Nat) : Int))).card : ℝ)) ∧
    ((Finset.range 4).filter
        (fun i => (if i < 2 then 0 else 1 : Int) = ((0 : Nat) : Int)) = ∅ →
      update_mean (scenario_inputs : Nat → ℝ) 1 4 2 scenario_mean
          (fun i => if i < 2 then 0 else 1) (((0 : Nat) : Int) * (1 : Nat) + (0 : Nat)) = 0)) :=
  ⟨fun i _ => by by_cases h : i < 2 <;> simp [h], by decide, by decide,
    update_mean_is_class_mean (scenario_inputs : Nat → ℝ) 1 4 2 scenario_mean
      (fun i => if i < 2 then 0 else 1) (fun i _ => by by_cases h : i < 2 <;> simp [h]) 0 0
      (by decide) (by decide)⟩

/-- Witness of C3 on the rows `[1], [2], [9], [10]` with `k = 2`. -/
theorem calc_kmeans_labels_in_range_witness :
    1 ≤ 2 ∧
    ∃ res : (Int → ℝ) × (Nat → Int),
      (∀ fuel, ⌊J Real.sqrt scenario_inputs 1 4 scenario_mean (fun _ => 0) / (1 / 100)⌋₊ + 1
          ≤ fuel →
        calc_kmeans Real.sqrt scenario_inputs 1 4 2 fuel scenario_mean (fun _ => 0)
          = some res) ∧
      ∀ i, i < 4 → 0 ≤ res.2 i ∧ res.2 i < (2 : Nat) :=
  ⟨by decide,
    calc_kmeans_labels_in_range scenario_inputs 1 4 2 scenario_mean (fun _ => 0) (by decide)⟩

/-- C4 (refuted as stated). On the rows `[0], [1]` with `k = 2`, the initial
centroids `[0], [2]` and `r` zero-filled, `calc_kmeans` leaves its loop in the
first pass with both rows labelled 0 and the centroids `[1/2], [0]`; running
`update_r` once more with these centroids labels row 0 with 1. -/
theorem fixed_point_fails_two_rows :
    ∃ res : (Int → ℝ) × (Nat → Int),
      calc_kmeans Real.sqrt two_rows_inputs 1 2 2 1 two_rows_mean (fun _ => 0) = some res ∧
      res.2 0 = 0 ∧
      update_r Real.sqrt two_rows_inputs 1 2 2 res.1 res.2 0 = 1 := by
  have hm0 := two_rows_update_mean_0 two_rows_mean (fun _ => 0) rfl rfl
  have hm1 := two_rows_update_mean_1 two_rows_mean (fun _ => 0) rfl rfl
  refine ⟨_, two_rows_run, rfl, ?_⟩
  rw [update_r_apply, if_pos (by decide)]
  norm_num [update_r_search, List.range_succ, calc_distance_one, two_rows_inputs, hm0, hm1,
    max_def]

section Core

variable {F : Type} [LinearOrderedField F]

/-- The distance reads only the first `dim` cells of the second vector. -/
theorem calc_distance_congr (sqrt : F → F) (v1 v2 w2 : Nat → F) (dim : Nat)
    (h : ∀ a, a < dim → v2 a = w2 a) :
    calc_distance sqrt v1 v2 dim = calc_distance sqrt v1 w2 dim := by
  unfold calc_distance
  congr 1
  apply List.foldl_ext
  intro acc a ha
  rw [h a (List.mem_range.mp ha)]

/-- The scan of `update_r` reads only the cells of the `k` centroids. -/
theorem update_r_search_congr (sqrt : F → F) (inputs : Nat → F) (dim k : Nat)
    (mean1 mean2 : Int → F)
    (h : ∀ c a, c < k → a < dim → mean1 ((c : Int) * dim + a) = mean2 ((c : Int) * dim + a))
    (i : Nat) :
    update_r_search sqrt inputs dim k mean1 i = update_r_search sqrt inputs dim k mean2 i := by
  unfold update_r_search
  apply List.foldl_ext
  intro curr klass hklass
  have hd := calc_distance_congr sqrt (fun a => inputs (i * dim + a))
    (fun a => mean1 ((klass : Int) * dim + a)) (fun a => mean2 ((klass : Int) * dim + a)) dim
    (fun a ha => h klass a (List.mem_range.mp hklass) ha)
  simp only [hd]

end Core

section Core
variable {F : Type} [LinearOrderedField F]

/-- One unfolding of the loop, in terms of `kmeans_pass`. -/
theorem calc_kmeans_loop_pass (sqrt : F → F) (inputs : Nat → F) (dim N k fuel : Nat)
    (target : F) (s : (Int → F) × (Nat → Int)) :
    calc_kmeans_loop sqrt inputs dim N k (fuel + 1) target s.1 s.2
      = if target - J sqrt inputs dim N (kmeans_pass sqrt inputs dim N k s).1
            (kmeans_pass sqrt inputs dim N k s).2 < 1 / 100
        then some (kmeans_pass sqrt inputs dim N k s)
        else calc_kmeans_loop sqrt inputs dim N k fuel
          (J sqrt inputs dim N (kmeans_pass sqrt inputs dim N k s).1
            (kmeans_pass sqrt inputs dim N k s).2)
          (kmeans_pass sqrt inputs dim N k s).1 (kmeans_pass sqrt inputs dim N k s).2 := by
  rw [calc_kmeans_loop_succ]
  rfl

/-- The loop entered with the objective of its state leaves at the first pass
whose drop of the objective is below `0.01`. -/
theorem calc_kmeans_loop_first_stop (sqrt : F → F) (inputs : Nat → F) (dim N k : Nat) :
    ∀ (n : Nat) (s : (Int → F) × (Nat → Int)),
      (∀ j, j < n →
        ¬ (J sqrt inputs dim N ((kmeans_pass sqrt inputs dim N k)^[j] s).1
              ((kmeans_pass sqrt inputs dim N k)^[j] s).2
            - J sqrt inputs dim N ((kmeans_pass sqrt inputs dim N k)^[j + 1] s).1
              ((kmeans_pass sqrt inputs dim N k)^[j + 1] s).2 < 1 / 100)) →
      (J sqrt inputs dim N ((kmeans_pass sqrt inputs dim N k)^[n] s).1
            ((kmeans_pass sqrt inputs dim N k)^[n] s).2
          - J sqrt inputs dim N ((kmeans_pass sqrt inputs dim N k)^[n + 1] s).1
            ((kmeans_pass sqrt inputs dim N k)^[n + 1] s).2 < 1 / 100) →
      (∀ fuel, n + 1 ≤ fuel →
        calc_kmeans_loop sqrt inputs dim N k fuel (J sqrt inputs dim N s.1 s.2) s.1 s.2
          = some ((kmeans_pass sqrt inputs dim N k)^[n + 1] s)) ∧
      (∀ fuel, fuel < n + 1 →
        calc_kmeans_loop sqrt inputs dim N k fuel (J sqrt inputs dim N s.1 s.2) s.1 s.2
          = none) := by
  intro n
  induction n with
  | zero =>
    intro s _ hstop
    simp only [Function.iterate_zero, id_eq, zero_add, Function.iterate_one] at hstop
    constructor
    · intro fuel hf
      obtain ⟨f, rfl⟩ : ∃ f, fuel = f + 1 := ⟨fuel - 1, by omega⟩
      rw [calc_kmeans_loop_pass, if_pos hstop]
      rfl
    · intro fuel hf
      have : fuel = 0 := by omega
      subst this
      rfl
  | succ m ih =>
    intro s hearly hstop
    have h0 := hearly 0 (by omega)
    simp only [Function.iterate_zero, id_eq, zero_add, Function.iterate_one] at h0
    have ih' := ih (kmeans_pass sqrt inputs dim N k s)
      (fun j hj => by
        have := hearly (j + 1) (by omega)
        simpa only [Function.iterate_succ_apply] using this)
      (by simpa only [Function.iterate_succ_apply] using hstop)
    constructor
    · intro fuel hf
      obtain ⟨f, rfl⟩ : ∃ f, fuel = f + 1 := ⟨fuel - 1, by omega⟩
      rw [calc_kmeans_loop_pass, if_neg h0, ih'.1 f (by omega)]
      rfl
    · intro fuel hf
      rcases Nat.eq_zero_or_pos fuel with h | h
      · subst h; rfl
      · obtain ⟨f, rfl⟩ : ∃ f, fuel = f + 1 := ⟨fuel - 1, by omega⟩
        rw [calc_kmeans_loop_pass, if_neg h0, ih'.2 f (by omega)]

/-- C5. Convergence rule: with `J_0` the objective of the initial centroids
against the initial `r` and `J_t` the objective after the `t`-th pass
(`update_r`, then `update_mean`), if `t ≥ 1` is the first index with
`J_(t-1) - J_t < 0.01` (every earlier pass `s` had `J_(s-1) - J_s ≥ 0.01`),
then `calc_kmeans` runs its loop body exactly `t` times (it returns for every
fuel `≥ t` and for no smaller fuel), it returns the state after pass `t`, and
the returned assignment vector is the one `update_r` computed in pass `t`
from the state after pass `t - 1`. -/
theorem calc_kmeans_stops_at_first_small_diff (sqrt : F → F) (inputs : Nat → F)
    (dim N k : Nat) (mean : Int → F) (r : Nat → Int) (t : Nat) (ht : 1 ≤ t)
    (hearlier : ∀ s, 1 ≤ s → s < t →
      ¬ (objective_seq sqrt inputs dim N k mean r (s - 1)
          - objective_seq sqrt inputs dim N k mean r s < 1 / 100))
    (hstop : objective_seq sqrt inputs dim N k mean r (t - 1)
        - objective_seq sqrt inputs dim N k mean r t < 1 / 100) :
    (∀ fuel, t ≤ fuel →
      calc_kmeans sqrt inputs dim N k fuel mean r
        = some (pass_state sqrt inputs dim N k mean r t)) ∧
    (∀ fuel, fuel < t → calc_kmeans sqrt inputs dim N k fuel mean r = none) ∧
    (pass_state sqrt inputs dim N k mean r t).2
      = update_r sqrt inputs dim N k (pass_state sqrt inputs dim N k mean r (t - 1)).1
          (pass_state sqrt inputs dim N k mean r (t - 1)).2 := by
  obtain ⟨n, rfl⟩ : ∃ n, t = n + 1 := ⟨t - 1, by omega⟩
  have hmain := calc_kmeans_loop_first_stop sqrt inputs dim N k n (mean, r)
    (fun j hj => by
      have := hearlier (j + 1) (by omega) (by omega)
      simpa only [objective_seq, pass_state, Nat.add_sub_cancel] using this)
    (by simpa only [objective_seq, pass_state, Nat.add_sub_cancel] using hstop)
  refine ⟨fun fuel hf => hmain.1 fuel hf, fun fuel hf => hmain.2 fuel hf, ?_⟩
  simp only [pass_state, Nat.add_sub_cancel, Function.iterate_succ_apply']
  rfl

end Core

/-- The objective before the loop, after one pass and after two passes on the
rows `[1], [2], [9], [10]` from the centroids `11/2, 10` and `r` zero-filled. -/
theorem scenario_objective_seq :
    objective_seq Real.sqrt scenario_inputs 1 4 2 scenario_mean (fun _ => 0) 0 = 16 ∧
    objective_seq Real.sqrt scenario_inputs 1 4 2 scenario_mean (fun _ => 0) 1 = 2 ∧
    objective_seq Real.sqrt scenario_inputs 1 4 2 scenario_mean (fun _ => 0) 2 = 2 := by
  have hin : ∀ i, i < 4 → (scenario_inputs : Nat → ℝ) i = scenario_inputs i := fun _ _ => rfl
  have hr1 := scenario_update_r scenario_inputs hin scenario_mean _ _ rfl rfl
    (Or.inl ⟨rfl, rfl⟩) (fun _ => 0)
  have hm1 := scenario_update_mean scenario_inputs hin scenario_mean _ hr1
  have hr2 := scenario_update_r scenario_inputs hin _ _ _ hm1.1 hm1.2 (Or.inr ⟨rfl, rfl⟩)
    (update_r Real.sqrt scenario_inputs 1 4 2 scenario_mean (fun _ => 0))
  have hm2 := scenario_update_mean scenario_inputs hin
    (update_mean scenario_inputs 1 4 2 scenario_mean
      (update_r Real.sqrt scenario_inputs 1 4 2 scenario_mean (fun _ => 0)))
    _ hr2
  refine ⟨?_, ?_, ?_⟩
  · norm_num [objective_seq, pass_state, J, List.range_succ, calc_distance_one,
      scenario_inputs, scenario_mean, max_def]
  · simp only [objective_seq, pass_state, Function.iterate_succ_apply', Function.iterate_zero,
      id_eq, kmeans_pass]
    exact scenario_J scenario_inputs hin _ _ hm1.1 hm1.2 hr1
  · simp only [objective_seq, pass_state, Function.iterate_succ_apply', Function.iterate_zero,
      id_eq, kmeans_pass]
    exact scenario_J scenario_inputs hin _ _ hm2.1 hm2.2 hr2

/-- On the scenario the first pass drops the objective by `14`. -/
theorem scenario_objective_early :
    ∀ s, 1 ≤ s → s < 2 →
      ¬ (objective_seq Real.sqrt scenario_inputs 1 4 2 scenario_mean (fun _ => 0) (s - 1)
          - objective_seq Real.sqrt scenario_inputs 1 4 2 scenario_mean (fun _ => 0) s
            < 1 / 100) := by
  intro s h1 h2
  have hs : s = 1 := by omega
  subst hs
  rw [scenario_objective_seq.1, scenario_objective_seq.2.1]
  norm_num

/-- On the scenario the second pass leaves the objective as it is. -/
theorem scenario_objective_stop :
    objective_seq Real.sqrt scenario_inputs 1 4 2 scenario_mean (fun _ => 0) (2 - 1)
        - objective_seq Real.sqrt scenario_inputs 1 4 2 scenario_mean (fun _ => 0) 2
          < 1 / 100 := by
  rw [scenario_objective_seq.2.1, scenario_objective_seq.2.2]
  norm_num

/-- Witness of C5 on the rows `[1], [2], [9], [10]`: the objective goes
`16, 2, 2`, so the loop stops at `t = 2`. -/
theorem calc_kmeans_stops_at_first_small_diff_witness :
    1 ≤ 2 ∧
    (∀ s, 1 ≤ s → s < 2 →
      ¬ (objective_seq Real.sqrt scenario_inputs 1 4 2 scenario_mean (fun _ => 0) (s - 1)
          - objective_seq Real.sqrt scenario_inputs 1 4 2 scenario_mean (fun _ => 0) s
            < 1 / 100)) ∧
    (objective_seq Real.sqrt scenario_inputs 1 4 2 scenario_mean (fun _ => 0) (2 - 1)
        - objective_seq Real.sqrt scenario_inputs 1 4 2 scenario_mean (fun _ => 0) 2
          < 1 / 100) ∧
    ((∀ fuel, 2 ≤ fuel →
      calc_kmeans Real.sqrt scenario_inputs 1 4 2 fuel scenario_mean (fun _ => 0)
        = some (pass_state Real.sqrt scenario_inputs 1 4 2 scenario_mean (fun _ => 0) 2)) ∧
    (∀ fuel, fuel < 2 →
      calc_kmeans Real.sqrt scenario_inputs 1 4 2 fuel scenario_mean (fun _ => 0) = none) ∧
    (pass_state Real.sqrt scenario_inputs 1 4 2 scenario_mean (fun _ => 0) 2).2
      = update_r Real.sqrt scenario_inputs 1 4 2
          (pass_state Real.sqrt scenario_inputs 1 4 2 scenario_mean (fun _ => 0) (2 - 1)).1
          (pass_state Real.sqrt scenario_inputs 1 4 2 scenario_mean (fun _ => 0) (2 - 1)).2) :=
  ⟨by decide, scenario_objective_early, scenario_objective_stop,
    calc_kmeans_stops_at_first_small_diff Real.sqrt scenario_inputs 1 4 2 scenario_mean
      (fun _ => 0) 2 (by decide) scenario_objective_early scenario_objective_stop⟩

/-! ## Matrix assembly and initial centroids -/

section Impl
variable {F : Type} [LinearOrderedField F]

/-- `KMEANS_CHECK_V` lets exactly the valid vectors through. -/
theorem KMEANS_CHECK_V_ok_iff (v : Option (ArrayType F)) (dim : Nat) (x : ArrayType F) :
    KMEANS_CHECK_V v dim = .ok x ↔ (v = some x ∧ x.dims = [dim] ∧ x.hasnull = false) := by
  cases v with
  | none => simp [KMEANS_CHECK_V]
  | some y =>
    unfold KMEANS_CHECK_V
    simp only [ARR_NDIM, ARR_DIMS, ARR_HASNULL]
    split
    · rename_i h
      constructor
      · intro h2; cases h2
      · rintro ⟨h1, h2, h3⟩
        cases h1
        rw [h2, h3] at h
        simp at h
    · rename_i h
      push_neg at h
      obtain ⟨h1, h2, h3⟩ := h
      have hd : y.dims = [dim] := by
        obtain ⟨d, hd⟩ := List.length_eq_one.mp h1
        rw [hd] at h2
        simp at h2
        rw [hd, h2]
      constructor
      · intro h4
        cases h4
        exact ⟨rfl, hd, by simpa using h3⟩
      · rintro ⟨h4, -, -⟩
        cases h4
        rfl

/-- The min/max loop for one row, cell by cell. -/
theorem update_minmax_apply (inputs : Nat → F) (dim i : Nat) (maxlist minlist : Nat → F) :
    ∀ m : Nat,
      (List.range m).foldl
        (fun (mm : (Nat → F) × (Nat → F)) (a : Nat) =>
          (if i = 0 ∨ mm.1 a < inputs (i * dim + a) then
              Function.update mm.1 a (inputs (i * dim + a))
            else mm.1,
           if i = 0 ∨ mm.2 a > inputs (i * dim + a) then
              Function.update mm.2 a (inputs (i * dim + a))
            else mm.2))
        (maxlist, minlist)
      = (fun a => if a < m then
            (if i = 0 ∨ maxlist a < inputs (i * dim + a) then inputs (i * dim + a)
              else maxlist a)
          else maxlist a,
         fun a => if a < m then
            (if i = 0 ∨ minlist a > inputs (i * dim + a) then inputs (i * dim + a)
              else minlist a)
          else minlist a) := by
  intro m
  induction m with
  | zero => simp
  | succ n ih =>
    rw [List.range_succ, List.foldl_append, ih]
    simp only [List.foldl_cons, List.foldl_nil, lt_self_iff_false, if_false]
    refine Prod.ext ?_ ?_
    · funext a
      simp only
      by_cases ha : a = n
      · subst ha
        simp only [Nat.lt_succ_self, if_true]
        split <;> simp
      · have h1 : (a < n + 1) ↔ (a < n) := by omega
        simp only [h1]
        split
        · rw [Function.update_noteq ha]
        · rfl
    · funext a
      simp only
      by_cases ha : a = n
      · subst ha
        simp only [Nat.lt_succ_self, if_true]
        split <;> simp
      · have h1 : (a < n + 1) ↔ (a < n) := by omega
        simp only [h1]
        split
        · rw [Function.update_noteq ha]
        · rfl

/-- One more row in the assembly loop. -/
theorem assemble_succ (winobj : WindowObject F) (dim n : Nat) :
    assemble winobj dim (n + 1)
      = match assemble winobj dim n with
        | .error e => .error e
        | .ok (inputs, maxlist, minlist) =>
          match DatumGetArrayTypeP (winobj.row n).arg0 with
          | .error e => .error e
          | .ok _ =>
            match KMEANS_CHECK_V (winobj.row n).arg0 dim with
            | .error e => .error e
            | .ok x =>
              .ok (memcpy inputs (n * dim) (ARR_DATA_PTR x) dim,
                (update_minmax (memcpy inputs (n * dim) (ARR_DATA_PTR x) dim) dim n
                  maxlist minlist).1,
                (update_minmax (memcpy inputs (n * dim) (ARR_DATA_PTR x) dim) dim n
                  maxlist minlist).2) := by
  simp only [assemble, List.range_succ, List.foldl_append, List.foldl_cons, List.foldl_nil]

/-- Cell `i * dim + a` of an earlier row lies before the block of row `n`. -/
theorem row_cell_lt (dim i n a : Nat) (hi : i < n) (ha : a < dim) :
    i * dim + a < n * dim := by
  have h1 : (i + 1) * dim ≤ n * dim := Nat.mul_le_mul_right dim hi
  have h2 : (i + 1) * dim = i * dim + dim := by ring
  omega

/-- When every row of the partition is a valid vector of length `dim`, the
assembly succeeds; `inputs` holds the rows, and for `N ≥ 1` every cell of
`maxlist` (`minlist`) is the value of some row and bounds all rows. -/
theorem assemble_ok (winobj : WindowObject F) (dim : Nat) :
    ∀ N : Nat, (∀ i, i < N → valid_vector (winobj.row i).arg0 dim) →
      ∃ inputs maxlist minlist,
        assemble winobj dim N = .ok (inputs, maxlist, minlist) ∧
        (∀ i a, i < N → a < dim → inputs (i * dim + a) = row_vector winobj i a) ∧
        (1 ≤ N → ∀ a, a < dim →
          (∃ i, i < N ∧ maxlist a = row_vector winobj i a) ∧
          (∀ i, i < N → row_vector winobj i a ≤ maxlist a) ∧
          (∃ i, i < N ∧ minlist a = row_vector winobj i a) ∧
          (∀ i, i < N → minlist a ≤ row_vector winobj i a)) := by
  intro N
  induction N with
  | zero =>
    intro _
    exact ⟨fun _ => 0, fun _ => 0, fun _ => 0, rfl, fun i a hi => by omega, fun h => by omega⟩
  | succ n ih =>
    intro hvalid
    obtain ⟨inputs, maxlist, minlist, hasm, hin, hmm⟩ := ih (fun i hi => hvalid i (by omega))
    obtain ⟨x, hx, hdims, hnull⟩ := hvalid n (by omega)
    have hchk : KMEANS_CHECK_V (winobj.row n).arg0 dim = .ok x :=
      (KMEANS_CHECK_V_ok_iff _ dim x).mpr ⟨hx, hdims, hnull⟩
    have hdet : DatumGetArrayTypeP (winobj.row n).arg0 = .ok x := by rw [hx]; rfl
    have hrow : ∀ a, row_vector winobj n a = ARR_DATA_PTR x a := by
      intro a; simp only [row_vector, hx]
    have hnew : ∀ a, a < dim →
        memcpy inputs (n * dim) (ARR_DATA_PTR x) dim (n * dim + a) = row_vector winobj n a := by
      intro a ha
      have hc : n * dim ≤ n * dim + a ∧ n * dim + a < n * dim + dim := by omega
      simp only [memcpy, if_pos hc, Nat.add_sub_cancel_left, hrow]
    refine ⟨memcpy inputs (n * dim) (ARR_DATA_PTR x) dim,
      (update_minmax (memcpy inputs (n * dim) (ARR_DATA_PTR x) dim) dim n maxlist minlist).1,
      (update_minmax (memcpy inputs (n * dim) (ARR_DATA_PTR x) dim) dim n maxlist minlist).2,
      by rw [assemble_succ, hasm]; simp only [hdet, hchk], ?_, ?_⟩
    · intro i a hi ha
      rcases Nat.lt_succ_iff_lt_or_eq.mp hi with h | h
      · have hlt := row_cell_lt dim i n a h ha
        have hc : ¬ (n * dim ≤ i * dim + a ∧ i * dim + a < n * dim + dim) := by omega
        simp only [memcpy, if_neg hc]
        exact hin i a h ha
      · subst h; exact hnew a ha
    · intro _ a ha
      have hmax : (update_minmax (memcpy inputs (n * dim) (ARR_DATA_PTR x) dim) dim n
          maxlist minlist).1 a
          = if n = 0 ∨ maxlist a < row_vector winobj n a then row_vector winobj n a
            else maxlist a := by
        unfold update_minmax
        rw [update_minmax_apply]
        simp only [if_pos ha, hnew a ha]
      have hmin : (update_minmax (memcpy inputs (n * dim) (ARR_DATA_PTR x) dim) dim n
          maxlist minlist).2 a
          = if n = 0 ∨ minlist a > row_vector winobj n a then row_vector winobj n a
            else minlist a := by
        unfold update_minmax
        rw [update_minmax_apply]
        simp only [if_pos ha, hnew a ha]
      rw [hmax, hmin]
      rcases Nat.eq_zero_or_pos n with h0 | hpos
      · subst h0
        simp only [true_or, if_true]
        refine ⟨⟨0, by omega, rfl⟩, ?_, ⟨0, by omega, rfl⟩, ?_⟩
        · intro i hi
          have : i = 0 := by omega
          subst this; exact le_refl _
        · intro i hi
          have : i = 0 := by omega
          subst this; exact le_refl _
      · have hn0 : n ≠ 0 := by omega
        obtain ⟨⟨imax, himax, hmaxeq⟩, hmaxle, ⟨imin, himin, hmineq⟩, hminle⟩ :=
          hmm hpos a ha
        simp only [hn0, false_or]
        refine ⟨?_, ?_, ?_, ?_⟩
        · split
          · exact ⟨n, by omega, rfl⟩
          · exact ⟨imax, by omega, hmaxeq⟩
        · intro i hi
          rcases Nat.lt_succ_iff_lt_or_eq.mp hi with h | h
          · split
            · rename_i hlt
              exact le_of_lt (lt_of_le_of_lt (hmaxle i h) hlt)
            · exact hmaxle i h
          · subst h
            split
            · exact le_refl _
            · rename_i hlt
              exact not_lt.mp hlt
        · split
          · exact ⟨n, by omega, rfl⟩
          · exact ⟨imin, by omega, hmineq⟩
        · intro i hi
          rcases Nat.lt_succ_iff_lt_or_eq.mp hi with h | h
          · split
            · rename_i hlt
              exact le_of_lt (lt_of_lt_of_le hlt (hminle i h))
            · exact hminle i h
          · subst h
            split
            · exact le_refl _
            · rename_i hlt
              exact not_lt.mp hlt

/-- Cell `i * dim + a` of the derived initial centroids. -/
theorem derived_mean_cell (maxlist minlist : Nat → F) (dim k : Nat) (mean : Int → F)
    (i a : Nat) (hi : i < k) (ha : a < dim) :
    derived_mean maxlist minlist dim k mean ((i : Int) * dim + a)
      = (maxlist a - minlist a) * ((i + 1 : Nat) : F) / ((dim + 1 : Nat) : F) + minlist a :=
  foldl_blocks dim
    (fun i a => (maxlist a - minlist a) * ((i + 1 : Nat) : F) / ((dim + 1 : Nat) : F)
      + minlist a) i a ha k hi mean

/-- Past the two checks of the current row and of the partition, `kmeans_run`
is `calc_kmeans` on the assembled matrix and the initial centroids. -/
theorem kmeans_run_eq (sqrt : F → F) (fuel : Nat) (winobj : WindowObject F) (r : Nat → Int)
    (sup : Bool) (dim : Nat)
    (hcur : valid_vector (winobj.row winobj.curpos).arg0 dim)
    (inputs maxlist minlist : Nat → F)
    (hasm : assemble winobj dim winobj.rowcount = .ok (inputs, maxlist, minlist)) :
    kmeans_run sqrt fuel winobj r sup
      = match (if sup = true then
            supplied_mean (winobj.row winobj.curpos).arg2 (winobj.row winobj.curpos).arg1 dim
              (fun _ => 0)
          else
            .ok (derived_mean maxlist minlist dim (winobj.row winobj.curpos).arg1.toNat
              (fun _ => 0))) with
        | .error e => .error e
        | .ok mean =>
          .ok ((calc_kmeans sqrt inputs dim winobj.rowcount
            (winobj.row winobj.curpos).arg1.toNat fuel mean r).map Prod.snd) := by
  obtain ⟨x, hx, hd, hn⟩ := hcur
  have hdim : ARR_DIMS x 0 = dim := by simp [ARR_DIMS, hd]
  have hchk : KMEANS_CHECK_V (some x) dim = .ok x :=
    (KMEANS_CHECK_V_ok_iff _ dim x).mpr ⟨rfl, hd, hn⟩
  unfold kmeans_run
  simp only [hx, DatumGetArrayTypeP, hdim, hchk, hasm]

/-- C6. Derived initialisation: on a partition whose rows are valid vectors of
length `dim`, the assembly yields the matrix `inputs` and the lists `minlist`,
`maxlist`; for every dimension `a < dim`, `minlist[a]` is the minimum and
`maxlist[a]` the maximum of column `a` of the matrix; without supplied
centroids the run starts `calc_kmeans` on the derived centroids, and for
every centroid index `i < k` the derived centroid is
`centroid[i][a] = (max[a] - min[a]) * (i+1) / (dim+1) + min[a]`, with field
division and the divisor `dim + 1`. -/
theorem derived_initialisation_formula (sqrt : F → F) (fuel : Nat) (winobj : WindowObject F)
    (r : Nat → Int) (dim : Nat)
    (hcur : winobj.curpos < winobj.rowcount)
    (hvalid : ∀ i, i < winobj.rowcount → valid_vector (winobj.row i).arg0 dim) :
    ∃ inputs maxlist minlist,
      assemble winobj dim winobj.rowcount = .ok (inputs, maxlist, minlist) ∧
      kmeans_run sqrt fuel winobj r false
        = .ok ((calc_kmeans sqrt inputs dim winobj.rowcount
            (winobj.row winobj.curpos).arg1.toNat fuel
            (derived_mean maxlist minlist dim (winobj.row winobj.curpos).arg1.toNat
              (fun _ => 0)) r).map Prod.snd) ∧
      ∀ a, a < dim →
        IsLeast {v | ∃ row, row < winobj.rowcount ∧ v = inputs (row * dim + a)} (minlist a) ∧
        IsGreatest {v | ∃ row, row < winobj.rowcount ∧ v = inputs (row * dim + a)}
          (maxlist a) ∧
        ∀ i, i < (winobj.row winobj.curpos).arg1.toNat →
          derived_mean maxlist minlist dim (winobj.row winobj.curpos).arg1.toNat (fun _ => 0)
              ((i : Int) * dim + a)
            = (maxlist a - minlist a) * ((i : F) + 1) / ((dim : F) + 1) + minlist a := by
  obtain ⟨inputs, maxlist, minlist, hasm, hin, hmm⟩ := assemble_ok winobj dim _ hvalid
  refine ⟨inputs, maxlist, minlist, hasm, ?_, ?_⟩
  · rw [kmeans_run_eq sqrt fuel winobj r false dim (hvalid _ hcur) inputs maxlist minlist hasm]
    rfl
  · intro a ha
    obtain ⟨⟨imax, himax, hmaxeq⟩, hmaxle, ⟨imin, himin, hmineq⟩, hminle⟩ :=
      hmm (by omega) a ha
    refine ⟨⟨⟨imin, himin, ?_⟩, ?_⟩, ⟨⟨imax, himax, ?_⟩, ?_⟩, ?_⟩
    · rw [hin imin a himin ha]; exact hmineq
    · rintro v ⟨row, hrow, rfl⟩
      rw [hin row a hrow ha]; exact hminle row hrow
    · rw [hin imax a himax ha]; exact hmaxeq
    · rintro v ⟨row, hrow, rfl⟩
      rw [hin row a hrow ha]; exact hmaxle row hrow
    · intro i hi
      rw [derived_mean_cell maxlist minlist dim _ _ i a hi ha]
      push_cast
      rfl

end Impl

/-! ## Runs of the window function -/

/-- Every row of the scenario partition is a valid vector of length 1. -/
theorem scenario_window_valid {F : Type} [LinearOrderedField F] (curpos : Nat) (i : Nat) :
    valid_vector ((scenario_window curpos : WindowObject F).row i).arg0 1 :=
  ⟨_, rfl, rfl, rfl⟩

/-- The rows of the scenario partition. -/
theorem scenario_window_vector {F : Type} [LinearOrderedField F] (curpos i : Nat) :
    row_vector (scenario_window curpos : WindowObject F) i 0 = scenario_inputs i := by
  simp [row_vector, scenario_window, vector1, ARR_DATA_PTR]

/-- What `kmeans` computes on the scenario partition: the labels `0, 0, 1, 1`. -/
theorem scenario_kmeans_run (curpos : Nat) (r : Nat → Int) (fuel : Nat) (hf : 2 ≤ fuel) :
    ∃ r2 : Nat → Int,
      kmeans_run Real.sqrt fuel (scenario_window curpos) r false = .ok (some r2) ∧
      ∀ i, i < 4 → r2 i = if i < 2 then 0 else 1 := by
  obtain ⟨inputs, maxlist, minlist, hasm, hin, hmm⟩ :=
    assemble_ok (scenario_window curpos : WindowObject ℝ) 1 4
      (fun i _ => scenario_window_valid curpos i)
  obtain ⟨⟨imax, himax, hmaxeq⟩, hmaxle, ⟨imin, himin, hmineq⟩, hminle⟩ :=
    hmm (by decide) 0 (by decide)
  have hin2 : ∀ i, i < 4 → inputs i = scenario_inputs i := by
    intro i hi
    have := hin i 0 hi (by decide)
    rwa [scenario_window_vector, Nat.mul_one, Nat.add_zero] at this
  have hmax : maxlist 0 = 10 := by
    apply le_antisymm
    · rw [hmaxeq, scenario_window_vector]
      interval_cases imax <;> norm_num [scenario_inputs]
    · have := hmaxle 3 (by decide)
      rw [scenario_window_vector] at this
      norm_num [scenario_inputs] at this
      exact this
  have hmin : minlist 0 = 1 := by
    apply le_antisymm
    · have := hminle 0 (by decide)
      rw [scenario_window_vector] at this
      norm_num [scenario_inputs] at this
      exact this
    · rw [hmineq, scenario_window_vector]
      interval_cases imin <;> norm_num [scenario_inputs]
  have hc0 := derived_mean_cell maxlist minlist 1 2 (fun _ => 0) 0 0 (by decide) (by decide)
  have hc1 := derived_mean_cell maxlist minlist 1 2 (fun _ => 0) 1 0 (by decide) (by decide)
  have e0 : ((0 : Nat) : Int) * ((1 : Nat) : Int) + ((0 : Nat) : Int) = 0 := by norm_num
  have e1 : ((1 : Nat) : Int) * ((1 : Nat) : Int) + ((0 : Nat) : Int) = 1 := by norm_num
  rw [e0, hmax, hmin] at hc0
  rw [e1, hmax, hmin] at hc1
  have hm0 : derived_mean maxlist minlist 1 2 (fun _ => 0) 0 = 11 / 2 := by
    rw [hc0]; norm_num
  have hm1 : derived_mean maxlist minlist 1 2 (fun _ => 0) 1 = 10 := by
    rw [hc1]; norm_num
  obtain ⟨res, hres, hlab, -, -⟩ := scenario_run inputs hin2 _ hm0 hm1 r fuel hf
  have hrun := kmeans_run_eq Real.sqrt fuel (scenario_window curpos) r false 1
    (scenario_window_valid curpos _) inputs maxlist minlist hasm
  refine ⟨res.2, ?_, hlab⟩
  rw [hrun]
  have hk : ((scenario_window curpos : WindowObject ℝ).row
      (scenario_window curpos : WindowObject ℝ).curpos).arg1.toNat = 2 := rfl
  have hN : (scenario_window curpos : WindowObject ℝ).rowcount = 4 := rfl
  simp only [hk, hN, Bool.false_eq_true, if_false, hres, Option.map_some']

/-- Witness of C6 on the scenario partition. -/
theorem derived_initialisation_formula_witness :
    (0 : Nat) < 4 ∧
    (∀ i, i < 4 → valid_vector ((scenario_window 0 : WindowObject ℝ).row i).arg0 1) ∧
    ∃ inputs maxlist minlist,
      assemble (scenario_window 0 : WindowObject ℝ) 1 (scenario_window 0 : WindowObject ℝ).rowcount
        = .ok (inputs, maxlist, minlist) ∧
      kmeans_run Real.sqrt 2 (scenario_window 0) (fun _ => 0) false
        = .ok ((calc_kmeans Real.sqrt inputs 1 (scenario_window 0 : WindowObject ℝ).rowcount
            ((scenario_window 0 : WindowObject ℝ).row
              (scenario_window 0 : WindowObject ℝ).curpos).arg1.toNat 2
            (derived_mean maxlist minlist 1
              ((scenario_window 0 : WindowObject ℝ).row
                (scenario_window 0 : WindowObject ℝ).curpos).arg1.toNat
              (fun _ => 0)) (fun _ => 0)).map Prod.snd) ∧
      ∀ a, a < 1 →
        IsLeast {v | ∃ row, row < (scenario_window 0 : WindowObject ℝ).rowcount ∧
          v = inputs (row * 1 + a)} (minlist a) ∧
        IsGreatest {v | ∃ row, row < (scenario_window 0 : WindowObject ℝ).rowcount ∧
          v = inputs (row * 1 + a)} (maxlist a) ∧
        ∀ i : Nat, i < ((scenario_window 0 : WindowObject ℝ).row
            (scenario_window 0 : WindowObject ℝ).curpos).arg1.toNat →
          derived_mean maxlist minlist 1
              ((scenario_window 0 : WindowObject ℝ).row
                (scenario_window 0 : WindowObject ℝ).curpos).arg1.toNat (fun _ => 0)
              ((i : Int) * (1 : Nat) + a)
            = (maxlist a - minlist a) * ((i : ℝ) + 1) / (((1 : Nat) : ℝ) + 1) + minlist a :=
  ⟨by decide, fun i _ => scenario_window_valid 0 i,
    derived_initialisation_formula Real.sqrt 2 (scenario_window 0) (fun _ => 0) 1
      (by decide) (fun i _ => scenario_window_valid 0 i)⟩

/-- C8. Scenario: for `dim = 1`, `N = 4`, `k = 2`, the input vectors
`[1], [2], [9], [10]` and derived initialisation, the call of `kmeans` at any
position of the partition, on a context not yet done (whatever `result`
held), returns within two passes: the context is marked done, the call
returns the label stored for its position, rows `[1]` and `[2]` have the same
label, rows `[9]` and `[10]` have the same label, and the two labels
differ. -/
theorem scenario_two_clusters (curpos : Nat) (hcur : curpos < 4) (context : kmeans_context)
    (hctx : context.isdone = false) (fuel : Nat) (hf : 2 ≤ fuel) :
    ∃ r : Nat → Int,
      kmeans Real.sqrt fuel (scenario_window curpos) context
        = ({ isdone := true, result := r }, Outcome.label (r curpos)) ∧
      r 0 = r 1 ∧ r 2 = r 3 ∧ r 0 ≠ r 2 := by
  obtain ⟨r2, hrun, hlab⟩ := scenario_kmeans_run curpos context.result fuel hf
  have _ := hcur
  refine ⟨r2, ?_, ?_, ?_, ?_⟩
  · unfold kmeans kmeans_impl
    rw [if_pos hctx, hrun]
    rfl
  · rw [hlab 0 (by decide), hlab 1 (by decide)]; rfl
  · rw [hlab 2 (by decide), hlab 3 (by decide)]; rfl
  · rw [hlab 0 (by decide), hlab 2 (by decide)]; decide

/-- Witness of C8: the first call of the partition, at position 0, on the
zero-filled context, with fuel for two passes. -/
theorem scenario_two_clusters_witness :
    (0 : Nat) < 4 ∧ fresh_context.isdone = false ∧ 2 ≤ 2 ∧
    ∃ r : Nat → Int,
      kmeans Real.sqrt 2 (scenario_window 0) fresh_context
        = ({ isdone := true, result := r }, Outcome.label (r 0)) ∧
      r 0 = r 1 ∧ r 2 = r 3 ∧ r 0 ≠ r 2 :=
  ⟨by decide, rfl, by decide,
    scenario_two_clusters 0 (by decide) fresh_context rfl 2 (by decide)⟩

/-- Every row of the two-row partition is a valid vector of length 1. -/
theorem two_rows_window_valid {F : Type} [LinearOrderedField F] (k : Int)
    (init : Option (ArrayType F)) (curpos : Nat) (i : Nat) :
    valid_vector ((two_rows_window k init curpos).row i).arg0 1 :=
  ⟨_, rfl, rfl, rfl⟩

/-- The rows of the two-row partition. -/
theorem two_rows_window_vector (k : Int) (init : Option (ArrayType ℝ)) (curpos : Nat) :
    row_vector (two_rows_window k init curpos) 0 0 = 0 ∧
    row_vector (two_rows_window k init curpos) 1 0 = 1 := by
  constructor <;>
    simp [row_vector, two_rows_window, vector1, ARR_DATA_PTR, two_rows_inputs]

/-- C7 (the code at the failing input). On the partition of the rows
`[0], [1]` with `dim = 1` and `k = 3`, the observed maximum of dimension 0 is
`1`, and the derived centroid of index `2` has the coordinate
`(1 - 0) * 3 / 2 + 0 = 3/2`, which is above the maximum. -/
theorem derived_centroid_exceeds_max :
    ∃ inputs maxlist minlist,
      assemble (two_rows_window 3 none 0 : WindowObject ℝ) 1 2
        = .ok (inputs, maxlist, minlist) ∧
      maxlist 0 = 1 ∧
      derived_mean maxlist minlist 1 3 (fun _ => 0) 2 = 3 / 2 ∧
      ¬ (derived_mean maxlist minlist 1 3 (fun _ => 0) 2 ≤ maxlist 0) := by
  obtain ⟨inputs, maxlist, minlist, hasm, -, hmm⟩ :=
    assemble_ok (two_rows_window 3 none 0 : WindowObject ℝ) 1 2
      (fun i _ => two_rows_window_valid 3 none 0 i)
  obtain ⟨⟨imax, himax, hmaxeq⟩, hmaxle, ⟨imin, himin, hmineq⟩, hminle⟩ :=
    hmm (by decide) 0 (by decide)
  obtain ⟨v0, v1⟩ := two_rows_window_vector 3 none 0
  have hmax : maxlist 0 = 1 := by
    apply le_antisymm
    · rw [hmaxeq]
      interval_cases imax
      · rw [v0]; norm_num
      · rw [v1]
    · have := hmaxle 1 (by decide)
      rwa [v1] at this
  have hmin : minlist 0 = 0 := by
    apply le_antisymm
    · have := hminle 0 (by decide)
      rwa [v0] at this
    · rw [hmineq]
      interval_cases imin
      · rw [v0]
      · rw [v1]; norm_num
  have hcell := derived_mean_cell maxlist minlist 1 3 (fun _ => 0) 2 0 (by decide) (by decide)
  have hval : derived_mean maxlist minlist 1 3 (fun _ => 0) 2 = 3 / 2 := by
    have h2 : ((2 : Nat) : Int) * ((1 : Nat) : Int) + ((0 : Nat) : Int) = 2 := by norm_num
    rw [h2] at hcell
    rw [hcell, hmax, hmin]
    norm_num
  refine ⟨inputs, maxlist, minlist, hasm, hmax, hval, ?_⟩
  rw [hval, hmax]
  norm_num

/-! ## A partition of one row -/

section Core
variable {F : Type} [LinearOrderedField F]

/-- The distance between vectors that agree on their first `dim` cells is
`sqrt 0`. -/
theorem calc_distance_eq (sqrt : F → F) (v1 v2 : Nat → F) (dim : Nat)
    (h : ∀ a, a < dim → v1 a = v2 a) : calc_distance sqrt v1 v2 dim = sqrt 0 := by
  unfold calc_distance
  congr 1
  have : ∀ m, m ≤ dim →
      (List.range m).foldl (fun sum (a : Nat) => sum + (v1 a - v2 a) * (v1 a - v2 a)) 0
        = (0 : F) := by
    intro m
    induction m with
    | zero => intro _; rfl
    | succ n ih =>
      intro hn
      rw [List.range_succ, List.foldl_append, ih (by omega)]
      simp [h n (by omega)]
  exact this dim (le_refl _)

/-- One pass on a partition of a single row with `k = 1`: the row gets label 0,
centroid 0 becomes the row, and the objective becomes `sqrt 0`. -/
theorem single_row_pass (sqrt : F → F) (inputs : Nat → F) (dim : Nat) (mean : Int → F)
    (r : Nat → Int) :
    update_r sqrt inputs dim 1 1 mean r 0 = 0 ∧
    (∀ a, a < dim →
      update_mean inputs dim 1 1 mean (update_r sqrt inputs dim 1 1 mean r) (a : Int)
        = inputs a) ∧
    J sqrt inputs dim 1
        (update_mean inputs dim 1 1 mean (update_r sqrt inputs dim 1 1 mean r))
        (update_r sqrt inputs dim 1 1 mean r) = sqrt 0 := by
  have hr : update_r sqrt inputs dim 1 1 mean r 0 = 0 := by
    rw [update_r_apply, if_pos (by decide)]
    simp [update_r_search, List.range_succ]
  have hm : ∀ a, a < dim →
      update_mean inputs dim 1 1 mean (update_r sqrt inputs dim 1 1 mean r) (a : Int)
        = inputs a := by
    intro a ha
    have h := update_mean_cell_sum inputs dim 1 1 mean (update_r sqrt inputs dim 1 1 mean r)
      0 a (by decide) ha
    simp only [Nat.cast_zero, zero_mul, zero_add] at h
    rw [h]
    simp only [Finset.sum_range_succ, Finset.sum_range_zero, hr, if_true, zero_add, zero_mul]
    norm_num
  refine ⟨hr, hm, ?_⟩
  unfold J
  simp only [List.range_succ, List.range_zero, List.nil_append, List.foldl_cons,
    List.foldl_nil, zero_add, hr, zero_mul]
  exact calc_distance_eq sqrt _ _ dim (fun a ha => (hm a ha).symm)

/-- The objective of a single row labelled 0 whose centroid 0 is the row. -/
theorem single_row_J (sqrt : F → F) (inputs : Nat → F) (dim : Nat) (mean : Int → F)
    (r : Nat → Int) (hr : r 0 = 0) (hm : ∀ a, a < dim → mean (a : Int) = inputs a) :
    J sqrt inputs dim 1 mean r = sqrt 0 := by
  unfold J
  simp only [List.range_succ, List.range_zero, List.nil_append, List.foldl_cons,
    List.foldl_nil, zero_add, hr, zero_mul]
  exact calc_distance_eq sqrt _ _ dim (fun a ha => (hm a ha).symm)

/-- A single row with `k = 1`: the loop ends in the first pass when it starts
from the row itself as centroid and the label 0, and within two passes from
any start; the label is 0. -/
theorem single_row_run (sqrt : F → F) (inputs : Nat → F) (dim : Nat) (mean : Int → F)
    (r : Nat → Int) :
    (r 0 = 0 → (∀ a, a < dim → mean (a : Int) = inputs a) → ∀ fuel, 1 ≤ fuel →
      ∃ res, calc_kmeans sqrt inputs dim 1 1 fuel mean r = some res ∧ res.2 0 = 0) ∧
    (∀ fuel, 2 ≤ fuel →
      ∃ res, calc_kmeans sqrt inputs dim 1 1 fuel mean r = some res ∧ res.2 0 = 0) := by
  obtain ⟨hr1, hm1, hJ1⟩ := single_row_pass sqrt inputs dim mean r
  constructor
  · intro hr hm fuel hf
    obtain ⟨f, rfl⟩ : ∃ f, fuel = f + 1 := ⟨fuel - 1, by omega⟩
    have hJ0 := single_row_J sqrt inputs dim mean r hr hm
    rw [calc_kmeans, calc_kmeans_loop_succ, hJ0, hJ1, if_pos (by norm_num)]
    exact ⟨_, rfl, hr1⟩
  · intro fuel hf
    obtain ⟨f, rfl⟩ : ∃ f, fuel = f + 2 := ⟨fuel - 2, by omega⟩
    obtain ⟨hr2, -, hJ2⟩ := single_row_pass sqrt inputs dim
      (update_mean inputs dim 1 1 mean (update_r sqrt inputs dim 1 1 mean r))
      (update_r sqrt inputs dim 1 1 mean r)
    rw [calc_kmeans, calc_kmeans_loop_succ]
    split
    · exact ⟨_, rfl, hr1⟩
    · rw [calc_kmeans_loop_succ, hJ1, hJ2, if_pos (by norm_num)]
      exact ⟨_, rfl, hr2⟩

end Core

/-! ## Supplied initial mean vectors -/

section Impl
variable {F : Type} [LinearOrderedField F]

/-- The shape test of kmeans.c 248-251 in terms of the list of dimensions. -/
theorem shape_test_iff (a : ArrayType F) (k : Int) (dim : Nat) :
    ((ARR_NDIM a = 2 ∧ (ARR_DIMS a 0 : Int) = k ∧ ARR_DIMS a 1 = dim) ∨
        (ARR_NDIM a = 1 ∧ (ARR_DIMS a 0 : Int) = k * dim))
      ↔ (a.dims.map Int.ofNat = [k, (dim : Int)] ∨
         a.dims.map Int.ofNat = [k * (dim : Int)]) := by
  unfold ARR_NDIM ARR_DIMS
  rcases hd : a.dims with _ | ⟨d0, _ | ⟨d1, _ | ⟨d2, t⟩⟩⟩
  · simp
  · simp
  · simp
  · simp

/-- On a NULL datum `supplied_mean` stops at `DatumGetArrayTypeP`, before the
`isnull` test. -/
theorem supplied_mean_null (k : Int) (dim : Nat) (mean : Int → F) :
    supplied_mean none k dim mean = .error KmeansError.null_datum_detoasted := rfl

/-- On a non-NULL datum `supplied_mean` raises its error exactly on the initial
mean vectors that are not valid, and stops in no other way. -/
theorem supplied_mean_error_iff (a : ArrayType F) (k : Int) (dim : Nat)
    (mean : Int → F) (e : KmeansError) :
    supplied_mean (some a) k dim mean = .error e
      ↔ (e = KmeansError.initial_mean_not_valid ∧ ¬ valid_initial_mean (some a) k dim) := by
  simp only [supplied_mean, DatumGetArrayTypeP, valid_initial_mean, Option.isNone_some,
    Bool.false_eq_true, false_or]
  have hshape_iff := shape_test_iff a k dim
  split
  · rename_i hbad
    rw [hshape_iff] at hbad
    constructor
    · intro h
      cases h
      refine ⟨rfl, ?_⟩
      rintro ⟨b, hb, hnull, hshape⟩
      cases hb
      rcases hbad with h1 | h1
      · rw [ARR_HASNULL, hnull] at h1; cases h1
      · exact h1 hshape
    · rintro ⟨rfl, -⟩; rfl
  · rename_i hgood
    constructor
    · intro h; cases h
    · rintro ⟨-, hnot⟩
      exfalso
      apply hnot
      rw [hshape_iff] at hgood
      push_neg at hgood
      exact ⟨a, rfl, by simpa [ARR_HASNULL] using hgood.1, hgood.2⟩

/-- The outcome of `kmeans_impl` on a context that is not done, from the result
of `kmeans_run`. -/
theorem kmeans_impl_not_done (sqrt : F → F) (fuel : Nat) (winobj : WindowObject F)
    (context : kmeans_context) (sup : Bool) (hctx : context.isdone = false) :
    kmeans_impl sqrt fuel winobj context sup
      = match kmeans_run sqrt fuel winobj context.result sup with
        | .error e => (context, Outcome.error e)
        | .ok none => (context, Outcome.out_of_fuel)
        | .ok (some r) => ({ isdone := true, result := r }, Outcome.label (r winobj.curpos)) := by
  unfold kmeans_impl
  rw [if_pos hctx]

/-- Initial mean vectors that are not valid, case by case. -/
theorem not_valid_initial_mean_iff (init : Option (ArrayType F)) (k : Int) (dim : Nat) :
    ¬ valid_initial_mean init k dim
      ↔ (init = none ∨ ∃ a, init = some a ∧
          (a.hasnull = true ∨
            ¬ (a.dims.map Int.ofNat = [k, (dim : Int)] ∨
               a.dims.map Int.ofNat = [k * (dim : Int)]))) := by
  unfold valid_initial_mean
  cases init with
  | none => simp
  | some a =>
    simp only [Option.some.injEq, false_or, reduceCtorEq]
    constructor
    · intro h
      refine ⟨a, rfl, ?_⟩
      by_cases hn : a.hasnull = true
      · exact Or.inl hn
      · right
        intro hs
        exact h ⟨a, rfl, by simpa using hn, hs⟩
    · rintro ⟨b, hb, hbad⟩ ⟨c, hc, hnull, hshape⟩
      subst hb; subst hc
      rcases hbad with h | h
      · rw [hnull] at h; cases h
      · exact h hshape

/-- C10 (amended). Supplied-centroids validation: on the first call for a
partition (context not done) whose rows are all valid vectors of length `dim`,
and for a supplied structure that is not NULL, `kmeans_with_init` fails with
the invalid-initial-centroids error if and only if the supplied structure
contains a missing element or its shape is neither two-level with exactly `k`
groups of `dim` elements nor flat with exactly `k * dim` elements; on this
failure the context is unchanged, still not marked done, and no label is
returned.  The case of a NULL structure is left out. -/
theorem supplied_centroids_validation (sqrt : F → F) (fuel : Nat) (winobj : WindowObject F)
    (context : kmeans_context) (dim : Nat) (a : ArrayType F)
    (hctx : context.isdone = false)
    (hcur : winobj.curpos < winobj.rowcount)
    (hvalid : ∀ i, i < winobj.rowcount → valid_vector (winobj.row i).arg0 dim)
    (hinit : (winobj.row winobj.curpos).arg2 = some a) :
    ((kmeans_with_init sqrt fuel winobj context).2
        = Outcome.error KmeansError.initial_mean_not_valid
      ↔ (a.hasnull = true ∨
          ¬ (a.dims.map Int.ofNat = [(winobj.row winobj.curpos).arg1, (dim : Int)] ∨
             a.dims.map Int.ofNat = [(winobj.row winobj.curpos).arg1 * (dim : Int)]))) ∧
    ((kmeans_with_init sqrt fuel winobj context).2
        = Outcome.error KmeansError.initial_mean_not_valid →
      (kmeans_with_init sqrt fuel winobj context).1 = context ∧
      (kmeans_with_init sqrt fuel winobj context).1.isdone = false ∧
      ∀ l, (kmeans_with_init sqrt fuel winobj context).2 ≠ Outcome.label l) := by
  obtain ⟨inputs, maxlist, minlist, hasm, -, -⟩ := assemble_ok winobj dim _ hvalid
  have hrun := kmeans_run_eq sqrt fuel winobj context.result true dim (hvalid _ hcur)
    inputs maxlist minlist hasm
  have himpl := kmeans_impl_not_done sqrt fuel winobj context true hctx
  rw [hrun, hinit] at himpl
  simp only [if_true] at himpl
  have hcases : ¬ valid_initial_mean (some a) (winobj.row winobj.curpos).arg1 dim
      ↔ (a.hasnull = true ∨
          ¬ (a.dims.map Int.ofNat = [(winobj.row winobj.curpos).arg1, (dim : Int)] ∨
             a.dims.map Int.ofNat = [(winobj.row winobj.curpos).arg1 * (dim : Int)])) := by
    rw [not_valid_initial_mean_iff]
    constructor
    · rintro (h | ⟨b, hb, h⟩)
      · cases h
      · cases hb; exact h
    · intro h
      exact Or.inr ⟨a, rfl, h⟩
  rw [← hcases]
  unfold kmeans_with_init
  cases hs : supplied_mean (some a) (winobj.row winobj.curpos).arg1 dim (fun _ => 0) with
  | error e =>
    obtain ⟨he, hbad⟩ := (supplied_mean_error_iff _ _ _ _ e).mp hs
    subst he
    rw [hs] at himpl
    simp only at himpl
    rw [himpl]
    exact ⟨⟨fun _ => hbad, fun _ => rfl⟩, fun _ => ⟨rfl, hctx, fun l h => by cases h⟩⟩
  | ok mean =>
    have hgood : ¬ ¬ valid_initial_mean (some a) (winobj.row winobj.curpos).arg1 dim := by
      intro hbad
      have := (supplied_mean_error_iff a (winobj.row winobj.curpos).arg1 dim (fun _ => 0)
        _).mpr ⟨rfl, hbad⟩
      rw [hs] at this
      cases this
    rw [hs] at himpl
    simp only at himpl
    have hne : (kmeans_impl sqrt fuel winobj context true).2
        ≠ Outcome.error KmeansError.initial_mean_not_valid := by
      rw [himpl]
      cases calc_kmeans sqrt inputs dim winobj.rowcount (winobj.row winobj.curpos).arg1.toNat
        fuel mean context.result with
      | none => simp
      | some res => simp
    exact ⟨⟨fun h => absurd h hne, fun h => absurd h hgood⟩, fun h => absurd h hne⟩

end Impl

/-! ## Claims on the window function -/

/-- C10 (refuted as stated). On the partition of the rows `[0]` and `[1, 2]`
with `k = 3` and a `2 × 1` structure as initial mean vectors, the shape of the
supplied structure is wrong, yet `kmeans_with_init` fails with the
invalid-input error of the second row, not with the
invalid-initial-centroids error. -/
theorem validation_reports_input_error_first :
    kmeans_with_init Real.sqrt 1 (ragged_window : WindowObject ℝ) fresh_context
      = (fresh_context, Outcome.error KmeansError.input_vector_not_valid) ∧
    ∃ a, ((ragged_window : WindowObject ℝ).row 0).arg2 = some a ∧
      ¬ (a.dims.map Int.ofNat = [3, ((1 : Nat) : Int)] ∨
         a.dims.map Int.ofNat = [3 * ((1 : Nat) : Int)]) := by
  constructor
  · rw [kmeans_with_init, kmeans_impl_not_done _ _ _ _ _ rfl]
    simp [kmeans_run, ragged_window, fresh_context, DatumGetArrayTypeP, KMEANS_CHECK_V,
      vector1, ARR_NDIM, ARR_DIMS, ARR_HASNULL, assemble, List.range_succ]
  · refine ⟨_, rfl, ?_⟩
    simp

/-- Witness of the amended C10: `k = 3` with a `2 × 1` structure on the
partition of the rows `[0], [1]` fails with the invalid-initial-centroids
error, and the context stays as it was. -/
theorem supplied_centroids_validation_witness :
    fresh_context.isdone = false ∧
    (two_rows_window 3 (some two_by_one) 0 : WindowObject ℝ).curpos
      < (two_rows_window 3 (some two_by_one) 0 : WindowObject ℝ).rowcount ∧
    ((two_rows_window 3 (some two_by_one) 0 : WindowObject ℝ).row
        (two_rows_window 3 (some two_by_one) 0 : WindowObject ℝ).curpos).arg2
      = some two_by_one ∧
    (kmeans_with_init Real.sqrt 1 (two_rows_window 3 (some two_by_one) 0) fresh_context).2
      = Outcome.error KmeansError.initial_mean_not_valid ∧
    (kmeans_with_init Real.sqrt 1 (two_rows_window 3 (some two_by_one) 0) fresh_context).1
      = fresh_context :=
  ⟨rfl, by decide, rfl,
    (supplied_centroids_validation Real.sqrt 1 (two_rows_window 3 (some two_by_one) 0)
      fresh_context 1 two_by_one rfl (by decide) (fun i _ => two_rows_window_valid _ _ _ i)
      rfl).1.mpr (Or.inr (by simp [two_rows_window, two_by_one])),
    ((supplied_centroids_validation Real.sqrt 1 (two_rows_window 3 (some two_by_one) 0)
      fresh_context 1 two_by_one rfl (by decide) (fun i _ => two_rows_window_valid _ _ _ i)
      rfl).2
      ((supplied_centroids_validation Real.sqrt 1 (two_rows_window 3 (some two_by_one) 0)
        fresh_context 1 two_by_one rfl (by decide) (fun i _ => two_rows_window_valid _ _ _ i)
        rfl).1.mpr (Or.inr (by simp [two_rows_window, two_by_one])))).1⟩

section Impl

variable {F : Type} [LinearOrderedField F]

/-- On a partition of one row the assembled matrix is the row, and both
`maxlist` and `minlist` are the row. -/
theorem single_row_assemble (winobj : WindowObject F) (dim : Nat)
    (hN : winobj.rowcount = 1) (hv : valid_vector (winobj.row 0).arg0 dim) :
    ∃ inputs maxlist minlist,
      assemble winobj dim winobj.rowcount = .ok (inputs, maxlist, minlist) ∧
      ∀ a, a < dim → maxlist a = inputs a ∧ minlist a = inputs a := by
  have hvalid : ∀ i, i < winobj.rowcount → valid_vector (winobj.row i).arg0 dim := by
    intro i hi
    rw [hN] at hi
    have : i = 0 := by omega
    subst this
    exact hv
  obtain ⟨inputs, maxlist, minlist, hasm, hin, hmm⟩ := assemble_ok winobj dim _ hvalid
  refine ⟨inputs, maxlist, minlist, hasm, ?_⟩
  intro a ha
  obtain ⟨⟨imax, himax, hmaxeq⟩, -, ⟨imin, himin, hmineq⟩, -⟩ := hmm (by omega) a ha
  have h0 : inputs a = row_vector winobj 0 a := by
    have := hin 0 a (by omega) ha
    rwa [Nat.zero_mul, Nat.zero_add] at this
  have e1 : imax = 0 := by omega
  have e2 : imin = 0 := by omega
  subst e1; subst e2
  exact ⟨by rw [hmaxeq, h0], by rw [hmineq, h0]⟩

/-- C9 (amended). Single-row scenario: on the first call (zero-filled context)
for a partition with `N = 1` and `k = 1`, any `dim` and any valid input
vector: with derived initialisation `kmeans` finishes within one pass of the
loop (the first diff is below `0.01`) and returns label 0; with supplied
valid initial centroids `kmeans_with_init` finishes within two passes and
returns label 0. In both cases the context is marked done. -/
theorem single_row_label_zero (sqrt : F → F) (winobj : WindowObject F) (dim : Nat)
    (hN : winobj.rowcount = 1) (hcur : winobj.curpos = 0)
    (hk : (winobj.row 0).arg1 = 1)
    (hv : valid_vector (winobj.row 0).arg0 dim) :
    (∀ fuel, 1 ≤ fuel →
      ∃ r, kmeans sqrt fuel winobj fresh_context
        = ({ isdone := true, result := r }, Outcome.label 0)) ∧
    (valid_initial_mean (winobj.row 0).arg2 1 dim → ∀ fuel, 2 ≤ fuel →
      ∃ r, kmeans_with_init sqrt fuel winobj fresh_context
        = ({ isdone := true, result := r }, Outcome.label 0)) := by
  obtain ⟨inputs, maxlist, minlist, hasm, hmm⟩ := single_row_assemble winobj dim hN hv
  have hcur0 : valid_vector (winobj.row winobj.curpos).arg0 dim := by rw [hcur]; exact hv
  have hk1 : (winobj.row winobj.curpos).arg1.toNat = 1 := by rw [hcur, hk]; rfl
  constructor
  · intro fuel hf
    have hrun := kmeans_run_eq sqrt fuel winobj fresh_context.result false dim hcur0
      inputs maxlist minlist hasm
    rw [hk1, hN] at hrun
    have hm : ∀ a, a < dim →
        derived_mean maxlist minlist dim 1 (fun _ => 0) (a : Int) = inputs a := by
      intro a ha
      have hc := derived_mean_cell maxlist minlist dim 1 (fun _ => 0) 0 a (by decide) ha
      simp only [Nat.cast_zero, zero_mul, zero_add] at hc
      rw [hc, (hmm a ha).1, (hmm a ha).2]
      simp
    obtain ⟨res, hres, hlab⟩ := (single_row_run sqrt inputs dim
      (derived_mean maxlist minlist dim 1 (fun _ => 0)) fresh_context.result).1 rfl hm fuel hf
    refine ⟨res.2, ?_⟩
    rw [kmeans, kmeans_impl_not_done _ _ _ _ _ rfl, hrun]
    simp only [Bool.false_eq_true, if_false, hres, Option.map_some', hcur, hlab]
  · intro hinit fuel hf
    have hrun := kmeans_run_eq sqrt fuel winobj fresh_context.result true dim hcur0
      inputs maxlist minlist hasm
    rw [hk1, hN] at hrun
    cases hs : supplied_mean (winobj.row winobj.curpos).arg2 (winobj.row winobj.curpos).arg1
        dim (fun _ => 0) with
    | error e =>
      exfalso
      obtain ⟨a, ha, -⟩ := id hinit
      rw [hcur, ha] at hs
      have := ((supplied_mean_error_iff _ _ _ _ e).mp hs).2
      rw [hk, ← ha] at this
      exact this hinit
    | ok mean =>
      obtain ⟨res, hres, hlab⟩ := (single_row_run sqrt inputs dim mean
        fresh_context.result).2 fuel hf
      refine ⟨res.2, ?_⟩
      rw [kmeans_with_init, kmeans_impl_not_done _ _ _ _ _ rfl, hrun]
      simp only [if_true, hs, hres, Option.map_some']
      rw [hcur, hlab]

end Impl

/-- Every row of the single-row partition is a valid vector of length 1. -/
theorem single_row_window_valid (x : ℝ) (init : Option (ArrayType ℝ)) (i : Nat) :
    valid_vector ((single_row_window x init).row i).arg0 1 :=
  ⟨_, rfl, rfl, rfl⟩

/-- C9 (refuted as stated). On the partition of the single row `[0]` with
`k = 1` and the supplied initial centroid `[1]` (a valid `1 × 1` structure
given flat), `kmeans_with_init` starts `calc_kmeans` on a matrix and a centroid
set for which the diff of the first pass is `J_0 - J_1 = 1`, not below `0.01`:
one pass of the loop does not finish the call. -/
theorem single_row_supplied_first_diff :
    valid_initial_mean ((single_row_window (0 : ℝ) (some (vector1 1))).row 0).arg2 1 1 ∧
    ∃ (inputs : Nat → ℝ) (mean : Int → ℝ),
      (∀ fuel, kmeans_run Real.sqrt fuel (single_row_window 0 (some (vector1 1)))
          fresh_context.result true
        = .ok ((calc_kmeans Real.sqrt inputs 1 1 1 fuel mean fresh_context.result).map
            Prod.snd)) ∧
      objective_seq Real.sqrt inputs 1 1 1 mean fresh_context.result 0
        - objective_seq Real.sqrt inputs 1 1 1 mean fresh_context.result 1 = 1 ∧
      kmeans_with_init Real.sqrt 1 (single_row_window 0 (some (vector1 1))) fresh_context
        = (fresh_context, Outcome.out_of_fuel) := by
  have hvalid : valid_initial_mean
      ((single_row_window (0 : ℝ) (some (vector1 1))).row 0).arg2 1 1 :=
    ⟨vector1 1, rfl, rfl, Or.inr rfl⟩
  refine ⟨hvalid, ?_⟩
  obtain ⟨inputs, maxlist, minlist, hasm, hin, -⟩ :=
    assemble_ok (single_row_window (0 : ℝ) (some (vector1 1))) 1 1
      (fun i _ => single_row_window_valid 0 _ i)
  have hi0 : inputs 0 = 0 := by
    have := hin 0 0 (by decide) (by decide)
    simpa [row_vector, single_row_window, vector1, ARR_DATA_PTR] using this
  have hrun : ∀ fuel, kmeans_run Real.sqrt fuel (single_row_window 0 (some (vector1 1)))
      fresh_context.result true
      = .ok ((calc_kmeans Real.sqrt inputs 1 1 1 fuel
          (fun j => if 0 ≤ j ∧ j < 1 then ARR_DATA_PTR (vector1 (1 : ℝ)) j.toNat else 0)
          fresh_context.result).map Prod.snd) := by
    intro fuel
    rw [kmeans_run_eq Real.sqrt fuel (single_row_window 0 (some (vector1 1)))
      fresh_context.result true 1 (single_row_window_valid 0 _ _) inputs maxlist minlist hasm]
    simp [supplied_mean, DatumGetArrayTypeP, single_row_window, vector1, ARR_NDIM, ARR_DIMS,
      ARR_HASNULL]
  obtain ⟨-, -, hJ1⟩ := single_row_pass Real.sqrt inputs 1
    (fun j => if 0 ≤ j ∧ j < 1 then ARR_DATA_PTR (vector1 (1 : ℝ)) j.toNat else 0)
    fresh_context.result
  have hJ0 : J Real.sqrt inputs 1 1
      (fun j => if 0 ≤ j ∧ j < 1 then ARR_DATA_PTR (vector1 (1 : ℝ)) j.toNat else 0)
      fresh_context.result = 1 := by
    norm_num [J, List.range_succ, calc_distance_one, fresh_context, hi0, ARR_DATA_PTR,
      vector1, max_def]
  rw [Real.sqrt_zero] at hJ1
  refine ⟨inputs, _, hrun, ?_, ?_⟩
  · simp only [objective_seq, pass_state, Function.iterate_succ_apply', Function.iterate_zero,
      id_eq, kmeans_pass]
    rw [hJ0, hJ1]
    norm_num
  · rw [kmeans_with_init, kmeans_impl_not_done _ _ _ _ _ rfl, hrun 1, calc_kmeans,
      calc_kmeans_loop_succ, hJ0, hJ1, if_neg (by norm_num)]
    rfl

/-- Witness of the amended C9 on the single row `[0]` with the supplied
centroid `[1]`. -/
theorem single_row_label_zero_witness :
    (single_row_window (0 : ℝ) (some (vector1 1))).rowcount = 1 ∧
    (single_row_window (0 : ℝ) (some (vector1 1))).curpos = 0 ∧
    ((single_row_window (0 : ℝ) (some (vector1 1))).row 0).arg1 = 1 ∧
    valid_vector ((single_row_window (0 : ℝ) (some (vector1 1))).row 0).arg0 1 ∧
    ((∀ fuel, 1 ≤ fuel →
      ∃ r, kmeans Real.sqrt fuel (single_row_window 0 (some (vector1 1))) fresh_context
        = ({ isdone := true, result := r }, Outcome.label 0)) ∧
    (valid_initial_mean ((single_row_window (0 : ℝ) (some (vector1 1))).row 0).arg2 1 1 →
      ∀ fuel, 2 ≤ fuel →
      ∃ r, kmeans_with_init Real.sqrt fuel (single_row_window 0 (some (vector1 1)))
          fresh_context
        = ({ isdone := true, result := r }, Outcome.label 0))) :=
  ⟨rfl, rfl, rfl, single_row_window_valid 0 _ 0,
    single_row_label_zero Real.sqrt (single_row_window 0 (some (vector1 1))) 1 rfl rfl rfl
      (single_row_window_valid 0 _ 0)⟩

/-! ## Distance and objective -/

section Core
variable {F : Type} [LinearOrderedField F]

/-- C13. Distance symmetry: for every `dim` and every two vectors `a`, `b`,
`calc_distance(a, b, dim) = calc_distance(b, a, dim)`. -/
theorem calc_distance_symm (sqrt : F → F) (a b : Nat → F) (dim : Nat) :
    calc_distance sqrt a b dim = calc_distance sqrt b a dim := by
  unfold calc_distance
  congr 1
  apply List.foldl_ext
  intro sum j _
  ring

/-- The objective does not grow when every row gets a label whose centroid is
at most as far as before. -/
theorem J_mono_labels (sqrt : F → F) (inputs : Nat → F) (dim : Nat) (mean : Int → F)
    (r1 r2 : Nat → Int) :
    ∀ N : Nat,
      (∀ i, i < N →
        calc_distance sqrt (fun a => inputs (i * dim + a))
            (fun a => mean (r1 i * dim + a)) dim
          ≤ calc_distance sqrt (fun a => inputs (i * dim + a))
            (fun a => mean (r2 i * dim + a)) dim) →
      J sqrt inputs dim N mean r1 ≤ J sqrt inputs dim N mean r2 := by
  intro N
  induction N with
  | zero => intro _; simp [J]
  | succ n ih =>
    intro h
    have hn := ih (fun i hi => h i (by omega))
    unfold J at hn ⊢
    rw [List.range_succ, List.foldl_append, List.foldl_append]
    simp only [List.foldl_cons, List.foldl_nil]
    exact add_le_add hn (h n (by omega))

/-- C17. Assignment never increases the objective: for every input matrix,
centroid set `mean` and assignment vector `r` with entries in `[0, k)`,
`J(inputs, mean, update_r(inputs, mean)) ≤ J(inputs, mean, r)`. -/
theorem update_r_does_not_increase_J (sqrt : F → F) (inputs : Nat → F) (dim N k : Nat)
    (mean : Int → F) (r : Nat → Int)
    (hr : ∀ i, i < N → 0 ≤ r i ∧ r i < k) :
    J sqrt inputs dim N mean (update_r sqrt inputs dim N k mean r)
      ≤ J sqrt inputs dim N mean r := by
  apply J_mono_labels
  intro i hi
  obtain ⟨h0, hlt⟩ := hr i hi
  have hk : 1 ≤ k := by omega
  obtain ⟨c, hc, hval, hmin, -⟩ := update_r_search_spec sqrt inputs dim mean i k hk
  have hri : r i = ((r i).toNat : Int) := (Int.toNat_of_nonneg h0).symm
  have hlt2 : (r i).toNat < k := by omega
  have := hmin (r i).toNat hlt2
  rw [update_r_apply, if_pos hi, hval]
  simp only [row_dist] at this
  rw [← hri] at this
  exact this

end Core


/-- Without rounding the rounded distance is `calc_distance`. -/
theorem calc_distance_rounded_id {F : Type} [LinearOrderedField F] (sqrt : F → F)
    (v1 v2 : Nat → F) (dim : Nat) :
    calc_distance_rounded id sqrt v1 v2 dim = calc_distance sqrt v1 v2 dim := rfl

/-- Witness of C17 on the rows `[1], [2], [9], [10]` with the labels
`0, 0, 1, 1` and the centroids `11/2, 10`. -/
theorem update_r_does_not_increase_J_witness :
    (∀ i, i < 4 → (0 : Int) ≤ (if i < 2 then 0 else 1) ∧
      ((if i < 2 then 0 else 1 : Int)) < (2 : Nat)) ∧
    J Real.sqrt scenario_inputs 1 4 scenario_mean
        (update_r Real.sqrt scenario_inputs 1 4 2 scenario_mean
          (fun i => if i < 2 then 0 else 1))
      ≤ J Real.sqrt scenario_inputs 1 4 scenario_mean (fun i => if i < 2 then 0 else 1) :=
  ⟨fun i _ => by by_cases h : i < 2 <;> simp [h],
    update_r_does_not_increase_J Real.sqrt scenario_inputs 1 4 2 scenario_mean
      (fun i => if i < 2 then 0 else 1) (fun i _ => by by_cases h : i < 2 <;> simp [h])⟩

/-! ## Stable labels and termination -/

section Core
variable {F : Type} [LinearOrderedField F]

/-- A nest of loops writing the cells `klass * dim + a` leaves every other cell
as it was. -/
theorem foldl_blocks_frame {β : Type} (dim : Nat) (v : Nat → Nat → β) (j : Int) (k : Nat)
    (hj : ∀ c a, c < k → a < dim → j ≠ (c : Int) * dim + a) (mem : Int → β) :
    (List.range k).foldl
        (fun (mem : Int → β) (klass : Nat) =>
          (List.range dim).foldl
            (fun (mem : Int → β) (a : Nat) =>
              Function.update mem ((klass : Int) * dim + a) (v klass a)) mem)
        mem j
      = mem j := by
  induction k with
  | zero => rfl
  | succ n ih =>
    rw [List.range_succ, List.foldl_append]
    simp only [List.foldl_cons, List.foldl_nil]
    rw [foldl_update_block ((n : Int) * dim) (v n) dim]
    have hb : ¬ ((n : Int) * (dim : Int) ≤ j ∧ j < (n : Int) * dim + dim) := by
      rintro ⟨h1, h2⟩
      apply hj n (j - (n : Int) * dim).toNat (by omega) (by omega)
      omega
    rw [if_neg hb]
    exact ih (fun c a hc ha => hj c a (by omega) ha)

/-- `update_mean` as a nest of loops that write one value per cell. -/
theorem update_mean_form (inputs : Nat → F) (dim N k : Nat) (mean : Int → F)
    (r : Nat → Int) :
    update_mean inputs dim N k mean r
      = (List.range k).foldl
        (fun (mem : Int → F) (klass : Nat) =>
          (List.range dim).foldl
            (fun (mem : Int → F) (a : Nat) =>
              Function.update mem ((klass : Int) * dim + a)
                (if (update_mean_sums inputs dim N r).2 (klass : Int) > 0 then
                  (update_mean_sums inputs dim N r).1 ((klass : Int) * dim + a)
                    / (((update_mean_sums inputs dim N r).2 (klass : Int) : Int) : F)
                else 0)) mem)
        mean := by
  unfold update_mean
  simp only
  congr 1
  funext mem klass
  congr 1
  funext mem a
  split <;> rfl

/-- `update_mean` leaves every cell outside the `k` centroids as it was. -/
theorem update_mean_frame (inputs : Nat → F) (dim N k : Nat) (mean : Int → F)
    (r : Nat → Int) (j : Int)
    (hj : ∀ c a, c < k → a < dim → j ≠ (c : Int) * dim + a) :
    update_mean inputs dim N k mean r j = mean j := by
  rw [update_mean_form]
  exact foldl_blocks_frame dim _ j k hj mean

/-- Running `update_mean` twice with the same labels changes nothing the second
time. -/
theorem update_mean_idem (inputs : Nat → F) (dim N k : Nat) (mean : Int → F)
    (r : Nat → Int) :
    update_mean inputs dim N k (update_mean inputs dim N k mean r) r
      = update_mean inputs dim N k mean r := by
  funext j
  by_cases h : ∃ c a, c < k ∧ a < dim ∧ j = (c : Int) * dim + a
  · obtain ⟨c, a, hc, ha, rfl⟩ := h
    rw [update_mean_cell inputs dim N k _ r c a hc ha,
      update_mean_cell inputs dim N k mean r c a hc ha]
  · push_neg at h
    exact update_mean_frame inputs dim N k _ r j (fun c a hc ha => h c a hc ha)

/-- When `update_r` reproduces the labels of the rows, it reproduces `r`. -/
theorem update_r_eq_of_stay (sqrt : F → F) (inputs : Nat → F) (dim N k : Nat)
    (mean : Int → F) (r : Nat → Int)
    (h : ∀ i, i < N → update_r sqrt inputs dim N k mean r i = r i) :
    update_r sqrt inputs dim N k mean r = r := by
  funext i
  by_cases hi : i < N
  · exact h i hi
  · rw [update_r_apply, if_neg hi]

/-- C16 (amended). Unchanged classification means zero diff, after the first
pass and for a finite objective: in every iteration of the loop of
`calc_kmeans` after the first (the iteration `t + 1` with `t ≥ 1`), if
`update_r` leaves the label of every row as it was before the iteration, then
the iteration reproduces the centroids and the labels it started from, so
`new_target` is the very value of `target`; when that value is finite, that
is, when `target - target` is `0` (it is not for a float8 objective that has
overflowed to infinity), `diff = target - new_target` is exactly `0` and the
loop exits in that iteration. -/
theorem unchanged_labels_zero_diff (sqrt : F → F) (inputs : Nat → F) (dim N k : Nat)
    (mean : Int → F) (r : Nat → Int) (t : Nat) (ht : 1 ≤ t)
    (hstay : ∀ i, i < N →
      (pass_state sqrt inputs dim N k mean r (t + 1)).2 i
        = (pass_state sqrt inputs dim N k mean r t).2 i)
    (hfin : objective_seq sqrt inputs dim N k mean r t
        - objective_seq sqrt inputs dim N k mean r t = 0) :
    pass_state sqrt inputs dim N k mean r (t + 1)
        = pass_state sqrt inputs dim N k mean r t ∧
    objective_seq sqrt inputs dim N k mean r (t + 1)
        = objective_seq sqrt inputs dim N k mean r t ∧
    objective_seq sqrt inputs dim N k mean r t
        - objective_seq sqrt inputs dim N k mean r (t + 1) = 0 ∧
    ∀ fuel, calc_kmeans_loop sqrt inputs dim N k (fuel + 1)
        (objective_seq sqrt inputs dim N k mean r t)
        (pass_state sqrt inputs dim N k mean r t).1
        (pass_state sqrt inputs dim N k mean r t).2
      = some (pass_state sqrt inputs dim N k mean r (t + 1)) := by
  obtain ⟨n, rfl⟩ : ∃ n, t = n + 1 := ⟨t - 1, by omega⟩
  have hnext : pass_state sqrt inputs dim N k mean r (n + 1 + 1)
      = kmeans_pass sqrt inputs dim N k (pass_state sqrt inputs dim N k mean r (n + 1)) := by
    simp only [pass_state, Function.iterate_succ_apply']
  have hcur : pass_state sqrt inputs dim N k mean r (n + 1)
      = kmeans_pass sqrt inputs dim N k (pass_state sqrt inputs dim N k mean r n) := by
    simp only [pass_state, Function.iterate_succ_apply']
  have hr : update_r sqrt inputs dim N k (pass_state sqrt inputs dim N k mean r (n + 1)).1
      (pass_state sqrt inputs dim N k mean r (n + 1)).2
      = (pass_state sqrt inputs dim N k mean r (n + 1)).2 := by
    apply update_r_eq_of_stay
    intro i hi
    have := hstay i hi
    rw [hnext] at this
    exact this
  have hm : update_mean inputs dim N k (pass_state sqrt inputs dim N k mean r (n + 1)).1
      (pass_state sqrt inputs dim N k mean r (n + 1)).2
      = (pass_state sqrt inputs dim N k mean r (n + 1)).1 := by
    have h1 : (pass_state sqrt inputs dim N k mean r (n + 1)).1
        = update_mean inputs dim N k (pass_state sqrt inputs dim N k mean r n).1
          (pass_state sqrt inputs dim N k mean r (n + 1)).2 := by
      rw [hcur]; rfl
    rw [h1]
    exact update_mean_idem inputs dim N k _ _
  have hfix : pass_state sqrt inputs dim N k mean r (n + 1 + 1)
      = pass_state sqrt inputs dim N k mean r (n + 1) := by
    rw [hnext]
    exact Prod.ext (by simp only [kmeans_pass]; rw [hr, hm]) (by simp only [kmeans_pass]; rw [hr])
  have hobj : objective_seq sqrt inputs dim N k mean r (n + 1 + 1)
      = objective_seq sqrt inputs dim N k mean r (n + 1) := by
    simp only [objective_seq, hfix]
  have hdiff : objective_seq sqrt inputs dim N k mean r (n + 1)
      - objective_seq sqrt inputs dim N k mean r (n + 1 + 1) = 0 := by
    rw [hobj]
    exact hfin
  refine ⟨hfix, hobj, hdiff, ?_⟩
  intro fuel
  rw [calc_kmeans_loop_pass, ← hnext]
  have hlt : objective_seq sqrt inputs dim N k mean r (n + 1)
      - J sqrt inputs dim N (pass_state sqrt inputs dim N k mean r (n + 1 + 1)).1
          (pass_state sqrt inputs dim N k mean r (n + 1 + 1)).2 < 1 / 100 := by
    have : J sqrt inputs dim N (pass_state sqrt inputs dim N k mean r (n + 1 + 1)).1
          (pass_state sqrt inputs dim N k mean r (n + 1 + 1)).2
        = objective_seq sqrt inputs dim N k mean r (n + 1 + 1) := rfl
    rw [this, hdiff]
    norm_num
  rw [if_pos hlt]

end Core

/-- As long as every pass drops the objective by at least `0.01`, the objective
after `n` passes is at most `J_0 - n * 0.01`. -/
theorem objective_seq_drop (inputs : Nat → ℝ) (dim N k : Nat) (mean : Int → ℝ)
    (r : Nat → Int) (B : Nat)
    (h : ∀ n, n < B →
      ¬ (objective_seq Real.sqrt inputs dim N k mean r n
          - objective_seq Real.sqrt inputs dim N k mean r (n + 1) < 1 / 100)) :
    ∀ n, n ≤ B →
      objective_seq Real.sqrt inputs dim N k mean r n
        ≤ objective_seq Real.sqrt inputs dim N k mean r 0 - (n : ℝ) * (1 / 100) := by
  intro n
  induction n with
  | zero => intro _; simp
  | succ m ih =>
    intro hm
    have h1 := ih (by omega)
    have h2 := not_lt.mp (h m (by omega))
    push_cast
    linarith

/-- C15. Termination of the convergence loop: over the reals, for every input
matrix, every `k`, every initial centroid set and every initial `r`,
`calc_kmeans` terminates: its loop body runs exactly `t` times for some
`1 ≤ t ≤ ⌊J_0 / 0.01⌋ + 1`, where `J_0` is the objective computed before the
loop (it returns for every fuel `≥ t` and for no smaller fuel); every pass
before the last dropped the objective by at least `0.01`, and the objective
is never negative. -/
theorem calc_kmeans_terminates_within_bound (inputs : Nat → ℝ) (dim N k : Nat)
    (mean : Int → ℝ) (r : Nat → Int) :
    ∃ (t : Nat) (res : (Int → ℝ) × (Nat → Int)),
      1 ≤ t ∧ t ≤ ⌊J Real.sqrt inputs dim N mean r / (1 / 100)⌋₊ + 1 ∧
      (∀ fuel, t ≤ fuel → calc_kmeans Real.sqrt inputs dim N k fuel mean r = some res) ∧
      (∀ fuel, fuel < t → calc_kmeans Real.sqrt inputs dim N k fuel mean r = none) ∧
      (∀ s, 1 ≤ s → s < t →
        1 / 100 ≤ objective_seq Real.sqrt inputs dim N k mean r (s - 1)
          - objective_seq Real.sqrt inputs dim N k mean r s) ∧
      (∀ s, 0 ≤ objective_seq Real.sqrt inputs dim N k mean r s) := by
  classical
  have hnn : ∀ s, 0 ≤ objective_seq Real.sqrt inputs dim N k mean r s :=
    fun s => J_nonneg Real.sqrt Real.sqrt_nonneg inputs dim N _ _
  have hJ0 : objective_seq Real.sqrt inputs dim N k mean r 0
      = J Real.sqrt inputs dim N mean r := rfl
  have hlt : J Real.sqrt inputs dim N mean r
      < (((⌊J Real.sqrt inputs dim N mean r / (1 / 100)⌋₊ + 1 : Nat) : ℝ)) * (1 / 100) := by
    have h1 := Nat.lt_floor_add_one (J Real.sqrt inputs dim N mean r / (1 / 100))
    have h2 : (0 : ℝ) < 1 / 100 := by norm_num
    have h3 := (div_lt_iff₀ h2).mp h1
    push_cast
    exact h3
  have hex : ∃ n, n < ⌊J Real.sqrt inputs dim N mean r / (1 / 100)⌋₊ + 1 ∧
      objective_seq Real.sqrt inputs dim N k mean r n
        - objective_seq Real.sqrt inputs dim N k mean r (n + 1) < 1 / 100 := by
    by_contra hno
    push_neg at hno
    have hdrop := objective_seq_drop inputs dim N k mean r
      (⌊J Real.sqrt inputs dim N mean r / (1 / 100)⌋₊ + 1)
      (fun n hn => not_lt.mpr (hno n hn)) _ (le_refl _)
    have := hnn (⌊J Real.sqrt inputs dim N mean r / (1 / 100)⌋₊ + 1)
    rw [hJ0] at hdrop
    linarith
  have hex2 : ∃ n, objective_seq Real.sqrt inputs dim N k mean r n
        - objective_seq Real.sqrt inputs dim N k mean r (n + 1) < 1 / 100 := by
    obtain ⟨n, -, hn⟩ := hex
    exact ⟨n, hn⟩
  have hfind := Nat.find_spec hex2
  have hmin : ∀ j, j < Nat.find hex2 →
      ¬ (objective_seq Real.sqrt inputs dim N k mean r j
        - objective_seq Real.sqrt inputs dim N k mean r (j + 1) < 1 / 100) :=
    fun j hj => Nat.find_min hex2 hj
  have hle : Nat.find hex2 < ⌊J Real.sqrt inputs dim N mean r / (1 / 100)⌋₊ + 1 := by
    obtain ⟨n, hn, hq⟩ := hex
    exact lt_of_le_of_lt (Nat.find_min' hex2 hq) hn
  have hmain := calc_kmeans_loop_first_stop Real.sqrt inputs dim N k (Nat.find hex2) (mean, r)
    hmin hfind
  refine ⟨Nat.find hex2 + 1, _, by omega, by omega, fun fuel hf => hmain.1 fuel hf,
    fun fuel hf => hmain.2 fuel hf, ?_, hnn⟩
  intro s hs1 hs2
  obtain ⟨j, rfl⟩ : ∃ j, s = j + 1 := ⟨s - 1, by omega⟩
  have := not_lt.mp (hmin j (by omega))
  simpa using this

/-- On the scenario the second pass reproduces the labels of the first. -/
theorem scenario_labels_stay :
    ∀ i, i < 4 →
      (pass_state Real.sqrt scenario_inputs 1 4 2 scenario_mean (fun _ => 0) (1 + 1)).2 i
        = (pass_state Real.sqrt scenario_inputs 1 4 2 scenario_mean (fun _ => 0) 1).2 i := by
  intro i hi
  have hin : ∀ i, i < 4 → (scenario_inputs : Nat → ℝ) i = scenario_inputs i := fun _ _ => rfl
  have hr1 := scenario_update_r scenario_inputs hin scenario_mean _ _ rfl rfl
    (Or.inl ⟨rfl, rfl⟩) (fun _ => 0)
  have hm1 := scenario_update_mean scenario_inputs hin scenario_mean _ hr1
  have hr2 := scenario_update_r scenario_inputs hin _ _ _ hm1.1 hm1.2 (Or.inr ⟨rfl, rfl⟩)
    (update_r Real.sqrt scenario_inputs 1 4 2 scenario_mean (fun _ => 0))
  simp only [pass_state, Function.iterate_succ_apply', Function.iterate_zero, id_eq,
    kmeans_pass]
  rw [hr2 i hi, hr1 i hi]

/-- Witness of the amended C16 on the rows `[1], [2], [9], [10]`: the second
pass leaves the labels `0, 0, 1, 1` as they are, the objective `2` is finite,
and the second pass reproduces the state and the objective of the first. -/
theorem unchanged_labels_zero_diff_witness :
    1 ≤ 1 ∧
    (∀ i, i < 4 →
      (pass_state Real.sqrt scenario_inputs 1 4 2 scenario_mean (fun _ => 0) (1 + 1)).2 i
        = (pass_state Real.sqrt scenario_inputs 1 4 2 scenario_mean (fun _ => 0) 1).2 i) ∧
    objective_seq Real.sqrt scenario_inputs 1 4 2 scenario_mean (fun _ => 0) 1
        - objective_seq Real.sqrt scenario_inputs 1 4 2 scenario_mean (fun _ => 0) 1 = 0 ∧
    (pass_state Real.sqrt scenario_inputs 1 4 2 scenario_mean (fun _ => 0) (1 + 1)
        = pass_state Real.sqrt scenario_inputs 1 4 2 scenario_mean (fun _ => 0) 1 ∧
    objective_seq Real.sqrt scenario_inputs 1 4 2 scenario_mean (fun _ => 0) (1 + 1)
        = objective_seq Real.sqrt scenario_inputs 1 4 2 scenario_mean (fun _ => 0) 1 ∧
    objective_seq Real.sqrt scenario_inputs 1 4 2 scenario_mean (fun _ => 0) 1
        - objective_seq Real.sqrt scenario_inputs 1 4 2 scenario_mean (fun _ => 0) (1 + 1) = 0 ∧
    ∀ fuel, calc_kmeans_loop Real.sqrt scenario_inputs 1 4 2 (fuel + 1)
        (objective_seq Real.sqrt scenario_inputs 1 4 2 scenario_mean (fun _ => 0) 1)
        (pass_state Real.sqrt scenario_inputs 1 4 2 scenario_mean (fun _ => 0) 1).1
        (pass_state Real.sqrt scenario_inputs 1 4 2 scenario_mean (fun _ => 0) 1).2
      = some (pass_state Real.sqrt scenario_inputs 1 4 2 scenario_mean (fun _ => 0) (1 + 1))) :=
  ⟨le_refl 1, scenario_labels_stay, sub_self _,
    unchanged_labels_zero_diff Real.sqrt scenario_inputs 1 4 2 scenario_mean (fun _ => 0) 1
      (le_refl 1) scenario_labels_stay (sub_self _)⟩

/-- C16 (refuted as stated). In the first iteration on the single row `[0]`
with `k = 1`, the initial centroid `[1]` and `r` zero-filled, `update_r` leaves
every entry of `r` as it was, yet `diff = J_0 - J_1 = 1 - 0 = 1`, and the loop
does not exit in that iteration. -/
theorem first_pass_unchanged_labels_nonzero_diff :
    (∀ i, update_r Real.sqrt origin_inputs 1 1 1 unit_mean (fun _ => 0) i
      = (fun _ => (0 : Int)) i) ∧
    J Real.sqrt origin_inputs 1 1 unit_mean (fun _ => 0)
      - J Real.sqrt origin_inputs 1 1
          (update_mean origin_inputs 1 1 1 unit_mean
            (update_r Real.sqrt origin_inputs 1 1 1 unit_mean (fun _ => 0)))
          (update_r Real.sqrt origin_inputs 1 1 1 unit_mean (fun _ => 0)) = 1 ∧
    calc_kmeans Real.sqrt origin_inputs 1 1 1 1 unit_mean (fun _ => 0) = none := by
  obtain ⟨hr, -, hJ1⟩ := single_row_pass Real.sqrt (origin_inputs : Nat → ℝ) 1 unit_mean
    (fun _ => 0)
  rw [Real.sqrt_zero] at hJ1
  have hJ0 : J Real.sqrt origin_inputs 1 1 unit_mean (fun _ => 0) = 1 := by
    norm_num [J, List.range_succ, calc_distance_one, origin_inputs, unit_mean, max_def]
  refine ⟨?_, ?_, ?_⟩
  · intro i
    by_cases hi : i < 1
    · have : i = 0 := by omega
      subst this
      exact hr
    · rw [update_r_apply, if_neg hi]
  · rw [hJ0, hJ1]
    norm_num
  · rw [calc_kmeans, calc_kmeans_loop_succ, hJ0, hJ1, if_neg (by norm_num)]
    rfl

/-! ## Memoization, min/max and input validation -/

section Impl

variable {F : Type} [LinearOrderedField F]

/-- A call that returns a label leaves the context marked done, and the label
is the one stored for the position of the call. -/
theorem kmeans_impl_label_marks_done (sqrt : F → F) (fuel : Nat) (winobj : WindowObject F)
    (context ctx1 : kmeans_context) (sup : Bool) (l : Int)
    (h : kmeans_impl sqrt fuel winobj context sup = (ctx1, Outcome.label l)) :
    ctx1.isdone = true ∧ l = ctx1.result winobj.curpos := by
  by_cases hctx : context.isdone = false
  · rw [kmeans_impl_not_done sqrt fuel winobj context sup hctx] at h
    cases hrun : kmeans_run sqrt fuel winobj context.result sup with
    | error e => rw [hrun] at h; cases h
    | ok o =>
      cases o with
      | none => rw [hrun] at h; cases h
      | some r =>
        rw [hrun] at h
        cases h
        exact ⟨rfl, rfl⟩
  · unfold kmeans_impl at h
    rw [if_neg hctx] at h
    cases h
    exact ⟨by simpa using hctx, rfl⟩

/-- C12. Memoization: once the context of a partition is marked done, every
call of `kmeans_impl` (any position, any arguments, any fuel, even none)
returns the stored `result[p]` of its position `p` and leaves the context,
done flag and stored labels, unchanged; hence two calls for the same position
return the identical value, the second call starting from the context the
first one left, and no call runs the clustering again. -/
theorem kmeans_impl_memoized (sqrt : F → F) (context : kmeans_context)
    (hdone : context.isdone = true) :
    (∀ (fuel : Nat) (winobj : WindowObject F) (sup : Bool),
      kmeans_impl sqrt fuel winobj context sup
        = (context, Outcome.label (context.result winobj.curpos))) ∧
    (∀ (fuel1 fuel2 : Nat) (winobj1 winobj2 : WindowObject F) (sup1 sup2 : Bool),
      winobj1.curpos = winobj2.curpos →
      (kmeans_impl sqrt fuel2 winobj2
          (kmeans_impl sqrt fuel1 winobj1 context sup1).1 sup2).2
        = (kmeans_impl sqrt fuel1 winobj1 context sup1).2) := by
  have hcall : ∀ (fuel : Nat) (winobj : WindowObject F) (sup : Bool),
      kmeans_impl sqrt fuel winobj context sup
        = (context, Outcome.label (context.result winobj.curpos)) := by
    intro fuel winobj sup
    unfold kmeans_impl
    rw [if_neg (by rw [hdone]; simp)]
  refine ⟨hcall, ?_⟩
  intro fuel1 fuel2 winobj1 winobj2 sup1 sup2 hpos
  rw [hcall fuel1 winobj1 sup1]
  simp only
  rw [hcall fuel2 winobj2 sup2, hpos]

/-- C18. MinMax computation: after the matrix assembly over `N ≥ 1` rows that
are valid vectors of length `dim`, the matrix `inputs` holds the rows, and for
every dimension `a < dim`, `minlist[a]` is the minimum and `maxlist[a]` the
maximum of `inputs[i][a]` over all rows `i < N`: both are attained by some
row, and `minlist[a] ≤ inputs[i][a] ≤ maxlist[a]` for every row. -/
theorem assemble_minmax (winobj : WindowObject F) (dim N : Nat) (hN : 1 ≤ N)
    (hvalid : ∀ i, i < N → valid_vector (winobj.row i).arg0 dim) :
    ∃ inputs maxlist minlist,
      assemble winobj dim N = .ok (inputs, maxlist, minlist) ∧
      (∀ i a, i < N → a < dim → inputs (i * dim + a) = row_vector winobj i a) ∧
      ∀ a, a < dim →
        IsLeast {v | ∃ i, i < N ∧ v = inputs (i * dim + a)} (minlist a) ∧
        IsGreatest {v | ∃ i, i < N ∧ v = inputs (i * dim + a)} (maxlist a) ∧
        ∀ i, i < N → minlist a ≤ inputs (i * dim + a) ∧ inputs (i * dim + a) ≤ maxlist a := by
  obtain ⟨inputs, maxlist, minlist, hasm, hin, hmm⟩ := assemble_ok winobj dim N hvalid
  refine ⟨inputs, maxlist, minlist, hasm, hin, ?_⟩
  intro a ha
  obtain ⟨⟨imax, himax, hmaxeq⟩, hmaxle, ⟨imin, himin, hmineq⟩, hminle⟩ := hmm hN a ha
  refine ⟨⟨⟨imin, himin, ?_⟩, ?_⟩, ⟨⟨imax, himax, ?_⟩, ?_⟩, ?_⟩
  · rw [hin imin a himin ha]; exact hmineq
  · rintro v ⟨i, hi, rfl⟩
    rw [hin i a hi ha]; exact hminle i hi
  · rw [hin imax a himax ha]; exact hmaxeq
  · rintro v ⟨i, hi, rfl⟩
    rw [hin i a hi ha]; exact hmaxle i hi
  · intro i hi
    rw [hin i a hi ha]
    exact ⟨hminle i hi, hmaxle i hi⟩

end Impl

/-- Witness of C12 on a context that is marked done. -/
theorem kmeans_impl_memoized_witness :
    done_context.isdone = true ∧
    (∀ (fuel : Nat) (winobj : WindowObject ℝ) (sup : Bool),
      kmeans_impl Real.sqrt fuel winobj done_context sup
        = (done_context, Outcome.label (done_context.result winobj.curpos))) ∧
    (∀ (fuel1 fuel2 : Nat) (winobj1 winobj2 : WindowObject ℝ) (sup1 sup2 : Bool),
      winobj1.curpos = winobj2.curpos →
      (kmeans_impl Real.sqrt fuel2 winobj2
          (kmeans_impl Real.sqrt fuel1 winobj1 done_context sup1).1 sup2).2
        = (kmeans_impl Real.sqrt fuel1 winobj1 done_context sup1).2) :=
  ⟨rfl, kmeans_impl_memoized Real.sqrt done_context rfl⟩

/-- Witness of C18 on the scenario partition. -/
theorem assemble_minmax_witness :
    1 ≤ 4 ∧
    (∀ i, i < 4 → valid_vector ((scenario_window 0 : WindowObject ℝ).row i).arg0 1) ∧
    ∃ inputs maxlist minlist,
      assemble (scenario_window 0 : WindowObject ℝ) 1 4 = .ok (inputs, maxlist, minlist) ∧
      (∀ i a, i < 4 → a < 1 →
        inputs (i * 1 + a) = row_vector (scenario_window 0 : WindowObject ℝ) i a) ∧
      ∀ a, a < 1 →
        IsLeast {v | ∃ i, i < 4 ∧ v = inputs (i * 1 + a)} (minlist a) ∧
        IsGreatest {v | ∃ i, i < 4 ∧ v = inputs (i * 1 + a)} (maxlist a) ∧
        ∀ i, i < 4 → minlist a ≤ inputs (i * 1 + a) ∧ inputs (i * 1 + a) ≤ maxlist a :=
  ⟨by decide, fun i _ => scenario_window_valid 0 i,
    assemble_minmax (scenario_window 0 : WindowObject ℝ) 1 4 (by decide)
      (fun i _ => scenario_window_valid 0 i)⟩

section Impl

variable {F : Type} [LinearOrderedField F]

/-- The only error `KMEANS_CHECK_V` raises is the invalid-input error. -/
theorem KMEANS_CHECK_V_error (v : Option (ArrayType F)) (dim : Nat) (e : KmeansError)
    (h : KMEANS_CHECK_V v dim = .error e) : e = KmeansError.input_vector_not_valid := by
  unfold KMEANS_CHECK_V at h
  cases v with
  | none =>
    simp only at h
    cases h
    rfl
  | some x =>
    simp only at h
    split at h
    · cases h; rfl
    · cases h

/-- `KMEANS_CHECK_V` raises its error on every value that is not a valid vector
of length `dim`. -/
theorem KMEANS_CHECK_V_of_not_valid (v : Option (ArrayType F)) (dim : Nat)
    (h : ¬ valid_vector v dim) :
    KMEANS_CHECK_V v dim = .error KmeansError.input_vector_not_valid := by
  cases hc : KMEANS_CHECK_V v dim with
  | error e => rw [KMEANS_CHECK_V_error v dim e hc]
  | ok x =>
    exfalso
    exact h ⟨x, (KMEANS_CHECK_V_ok_iff v dim x).mp hc⟩

/-- On a partition without NULL row the assembly fails, with the invalid-input
error, as soon as one row is not a valid vector of length `dim`; it stops in
no other way. -/
theorem assemble_error_iff (winobj : WindowObject F) (dim : Nat) :
    ∀ N : Nat, (∀ i, i < N → (winobj.row i).arg0 ≠ none) →
      (∀ e, assemble winobj dim N = .error e → e = KmeansError.input_vector_not_valid) ∧
      ((∃ i, i < N ∧ ¬ valid_vector (winobj.row i).arg0 dim) →
        assemble winobj dim N = .error KmeansError.input_vector_not_valid) := by
  intro N
  induction N with
  | zero =>
    intro _
    refine ⟨fun e h => ?_, fun ⟨i, hi, _⟩ => by omega⟩
    simp [assemble] at h
  | succ n ih =>
    intro hnn
    obtain ⟨ih1, ih2⟩ := ih (fun i hi => hnn i (by omega))
    obtain ⟨y, hy⟩ : ∃ y, (winobj.row n).arg0 = some y :=
      Option.ne_none_iff_exists'.mp (hnn n (by omega))
    have hdet : DatumGetArrayTypeP (winobj.row n).arg0 = .ok y := by rw [hy]; rfl
    rw [assemble_succ]
    cases hprev : assemble winobj dim n with
    | error e0 =>
      have he0 := ih1 e0 hprev
      subst he0
      exact ⟨fun e h => by cases h; rfl, fun _ => rfl⟩
    | ok res =>
      obtain ⟨inputs, maxlist, minlist⟩ := res
      simp only [hdet]
      by_cases hv : valid_vector (winobj.row n).arg0 dim
      · obtain ⟨x, hx⟩ := hv
        rw [(KMEANS_CHECK_V_ok_iff _ dim x).mpr hx]
        dsimp only
        refine ⟨fun e h => (by cases h), ?_⟩
        rintro ⟨i, hi, hbad⟩
        rcases Nat.lt_succ_iff_lt_or_eq.mp hi with h | h
        · have := ih2 ⟨i, h, hbad⟩
          rw [hprev] at this
          cases this
        · subst h
          exact absurd ⟨x, hx⟩ hbad
      · rw [KMEANS_CHECK_V_of_not_valid _ dim hv]
        exact ⟨fun e h => by cases h; rfl, fun _ => rfl⟩

/-- On a partition without NULL row that is not a matrix of valid vectors of
one length, `kmeans_run` raises the invalid-input error, whatever the fuel. -/
theorem kmeans_run_invalid_input (sqrt : F → F) (fuel : Nat) (winobj : WindowObject F)
    (r : Nat → Int) (sup : Bool) (hcur : winobj.curpos < winobj.rowcount)
    (hnn : ∀ i, i < winobj.rowcount → (winobj.row i).arg0 ≠ none)
    (hbad : ¬ ∃ dim, ∀ i, i < winobj.rowcount → valid_vector (winobj.row i).arg0 dim) :
    kmeans_run sqrt fuel winobj r sup = .error KmeansError.input_vector_not_valid := by
  obtain ⟨y, hy⟩ : ∃ y, (winobj.row winobj.curpos).arg0 = some y :=
    Option.ne_none_iff_exists'.mp (hnn _ hcur)
  by_cases hv : valid_vector (some y) (ARR_DIMS y 0)
  · obtain ⟨x, hx, hd, hn⟩ := hv
    cases hx
    have hchk : KMEANS_CHECK_V (some y) (ARR_DIMS y 0) = .ok y :=
      (KMEANS_CHECK_V_ok_iff _ _ y).mpr ⟨rfl, hd, hn⟩
    have hrow : ∃ i, i < winobj.rowcount ∧
        ¬ valid_vector (winobj.row i).arg0 (ARR_DIMS y 0) := by
      by_contra hno
      push_neg at hno
      exact hbad ⟨ARR_DIMS y 0, hno⟩
    have hasm := (assemble_error_iff winobj (ARR_DIMS y 0) winobj.rowcount hnn).2 hrow
    unfold kmeans_run
    simp only [hy, DatumGetArrayTypeP, hchk, hasm]
  · unfold kmeans_run
    simp only [hy, DatumGetArrayTypeP, KMEANS_CHECK_V_of_not_valid _ _ hv]

/-- Input validation on the rows that are not NULL: on the first query of a
partition (context not done) without NULL row, if a row's vector is not
one-dimensional, contains a missing element, or has a shape other than that
of the vector of the current row (in particular another length than `dim`),
then `kmeans_impl` fails with the invalid-input error whatever the fuel (the
clustering loop is not entered), the context is returned unchanged with the
done flag still false, and no label is returned, at whatever position of the
partition the call is made. -/
theorem invalid_row_fails (sqrt : F → F) (fuel : Nat) (winobj : WindowObject F)
    (context : kmeans_context) (sup : Bool)
    (hctx : context.isdone = false) (hcur : winobj.curpos < winobj.rowcount)
    (hnn : ∀ i, i < winobj.rowcount → (winobj.row i).arg0 ≠ none)
    (hbad : ∃ i, i < winobj.rowcount ∧
      ((∃ x, (winobj.row i).arg0 = some x ∧ (x.dims.length ≠ 1 ∨ x.hasnull = true)) ∨
       (∃ x y, (winobj.row i).arg0 = some x ∧ (winobj.row winobj.curpos).arg0 = some y ∧
          x.dims ≠ y.dims))) :
    kmeans_impl sqrt fuel winobj context sup
        = (context, Outcome.error KmeansError.input_vector_not_valid) ∧
    (kmeans_impl sqrt fuel winobj context sup).1.isdone = false ∧
    (∀ l, (kmeans_impl sqrt fuel winobj context sup).2 ≠ Outcome.label l) ∧
    (∀ (fuel2 : Nat) (p : Nat), p < winobj.rowcount →
      kmeans_impl sqrt fuel2 { winobj with curpos := p } context sup
        = (context, Outcome.error KmeansError.input_vector_not_valid)) := by
  have hnot : ¬ ∃ dim, ∀ i, i < winobj.rowcount → valid_vector (winobj.row i).arg0 dim := by
    rintro ⟨dim, hall⟩
    obtain ⟨i, hi, hcase⟩ := hbad
    obtain ⟨x, hx, hxd, hxn⟩ := hall i hi
    obtain ⟨y, hy, hyd, -⟩ := hall _ hcur
    rcases hcase with ⟨x2, hx2, h⟩ | ⟨x2, y2, hx2, hy2, h⟩
    · rw [hx] at hx2
      cases hx2
      rcases h with h | h
      · rw [hxd] at h; exact h rfl
      · rw [hxn] at h; cases h
    · rw [hx] at hx2
      rw [hy] at hy2
      cases hx2
      cases hy2
      exact h (by rw [hxd, hyd])
  have hres : kmeans_impl sqrt fuel winobj context sup
      = (context, Outcome.error KmeansError.input_vector_not_valid) := by
    rw [kmeans_impl_not_done sqrt fuel winobj context sup hctx,
      kmeans_run_invalid_input sqrt fuel winobj context.result sup hcur hnn hnot]
  refine ⟨hres, by rw [hres]; exact hctx, fun l => by rw [hres]; simp, ?_⟩
  intro fuel2 p hp
  rw [kmeans_impl_not_done sqrt fuel2 _ context sup hctx,
    kmeans_run_invalid_input sqrt fuel2 { winobj with curpos := p } context.result sup hp
      hnn hnot]

end Impl

/-- Input validation on the partition of the rows `[0]` and `[1, 2]`: the
second row has another length than the first. -/
theorem invalid_row_fails_ragged :
    kmeans_impl Real.sqrt 0 (ragged_window : WindowObject ℝ) fresh_context false
        = (fresh_context, Outcome.error KmeansError.input_vector_not_valid) ∧
    (kmeans_impl Real.sqrt 0 (ragged_window : WindowObject ℝ) fresh_context false).1.isdone
      = false := by
  have h := invalid_row_fails Real.sqrt 0 (ragged_window : WindowObject ℝ) fresh_context false
    rfl (by decide)
    (fun i _ => by by_cases hi : i = 0 <;> simp [ragged_window, hi])
    ⟨1, by decide, Or.inr ⟨_, _, rfl, rfl, by simp [vector1]⟩⟩
  exact ⟨h.1, h.2.1⟩

/-- C11 (the code at the failing input). On the first query of the partition
of the rows `[0]` and NULL, the call does not end in the invalid-input error:
the NULL datum of the second row is handed to `DatumGetArrayTypeP` (kmeans.c
220) before `KMEANS_CHECK_V` tests `isnull` (kmeans.c 223), and the call stops
there, whatever the fuel. -/
theorem null_row_reaches_detoast (fuel : Nat) :
    kmeans_impl Real.sqrt fuel (null_row_window : WindowObject ℝ) fresh_context false
        = (fresh_context, Outcome.error KmeansError.null_datum_detoasted) ∧
    kmeans_impl Real.sqrt fuel (null_row_window : WindowObject ℝ) fresh_context false
        ≠ (fresh_context, Outcome.error KmeansError.input_vector_not_valid) := by
  have h : kmeans_impl Real.sqrt fuel (null_row_window : WindowObject ℝ) fresh_context false
      = (fresh_context, Outcome.error KmeansError.null_datum_detoasted) := by
    rw [kmeans_impl_not_done _ _ _ _ _ rfl]
    simp [kmeans_run, null_row_window, fresh_context, DatumGetArrayTypeP, KMEANS_CHECK_V,
      vector1, ARR_NDIM, ARR_DIMS, ARR_HASNULL, assemble, List.range_succ]
  refine ⟨h, ?_⟩
  rw [h]
  simp

/-! ## The state the loop returns -/

section Core

variable {F : Type} [LinearOrderedField F]

/-- When the loop, entered with the objective of its state, returns, it returns
the state after the first pass whose drop of the objective is below `0.01`. -/
theorem calc_kmeans_loop_returns_first_stop (sqrt : F → F) (inputs : Nat → F)
    (dim N k : Nat) (res : (Int → F) × (Nat → Int)) :
    ∀ (fuel : Nat) (s : (Int → F) × (Nat → Int)),
      calc_kmeans_loop sqrt inputs dim N k fuel (J sqrt inputs dim N s.1 s.2) s.1 s.2
        = some res →
      ∃ n, n < fuel ∧
        (∀ j, j < n →
          ¬ (J sqrt inputs dim N ((kmeans_pass sqrt inputs dim N k)^[j] s).1
                ((kmeans_pass sqrt inputs dim N k)^[j] s).2
              - J sqrt inputs dim N ((kmeans_pass sqrt inputs dim N k)^[j + 1] s).1
                ((kmeans_pass sqrt inputs dim N k)^[j + 1] s).2 < 1 / 100)) ∧
        (J sqrt inputs dim N ((kmeans_pass sqrt inputs dim N k)^[n] s).1
              ((kmeans_pass sqrt inputs dim N k)^[n] s).2
            - J sqrt inputs dim N ((kmeans_pass sqrt inputs dim N k)^[n + 1] s).1
              ((kmeans_pass sqrt inputs dim N k)^[n + 1] s).2 < 1 / 100) ∧
        res = (kmeans_pass sqrt inputs dim N k)^[n + 1] s := by
  intro fuel
  induction fuel with
  | zero => intro s h; simp [calc_kmeans_loop] at h
  | succ f ih =>
    intro s h
    rw [calc_kmeans_loop_pass] at h
    split at h
    · rename_i hlt
      refine ⟨0, by omega, fun j hj => by omega, ?_, ?_⟩
      · simpa only [Function.iterate_zero, id_eq, zero_add, Function.iterate_one] using hlt
      · simp only [zero_add, Function.iterate_one]
        exact (Option.some.inj h).symm
    · rename_i hge
      obtain ⟨n, hn, hearly, hstop, hres⟩ := ih (kmeans_pass sqrt inputs dim N k s) h
      refine ⟨n + 1, by omega, ?_, ?_, ?_⟩
      · intro j hj
        rcases Nat.eq_zero_or_pos j with h0 | hpos
        · subst h0
          simpa only [Function.iterate_zero, id_eq, zero_add, Function.iterate_one] using hge
        · obtain ⟨i, rfl⟩ : ∃ i, j = i + 1 := ⟨j - 1, by omega⟩
          have := hearly i (by omega)
          simpa only [Function.iterate_succ_apply] using this
      · simpa only [Function.iterate_succ_apply] using hstop
      · simpa only [Function.iterate_succ_apply] using hres

/-- C4 (amended). If `calc_kmeans` exits with the final centroid set `M` and
the final assignment vector `r`, then it exits after some pass `t ≥ 1`, the
first with `J_(t-1) - J_t < 0.01`; `(M, r)` is the state after pass `t`, `r` is
what `update_r` computed from the state after pass `t - 1`, and `M` is what
`update_mean` computed from `r`.  Running `update_r` once more with `M` yields
exactly `r` whenever pass `t` left every centroid as it was, that is, whenever
`M` agrees with the centroid set after pass `t - 1` on the cells of the `k`
centroids. -/
theorem calc_kmeans_fixed_point_when_centroids_stay (sqrt : F → F) (inputs : Nat → F)
    (dim N k fuel : Nat) (mean : Int → F) (r : Nat → Int) (res : (Int → F) × (Nat → Int))
    (h : calc_kmeans sqrt inputs dim N k fuel mean r = some res) :
    ∃ t, 1 ≤ t ∧ t ≤ fuel ∧
      res = pass_state sqrt inputs dim N k mean r t ∧
      objective_seq sqrt inputs dim N k mean r (t - 1)
        - objective_seq sqrt inputs dim N k mean r t < 1 / 100 ∧
      (∀ s, 1 ≤ s → s < t →
        ¬ (objective_seq sqrt inputs dim N k mean r (s - 1)
            - objective_seq sqrt inputs dim N k mean r s < 1 / 100)) ∧
      res.2 = update_r sqrt inputs dim N k
          (pass_state sqrt inputs dim N k mean r (t - 1)).1
          (pass_state sqrt inputs dim N k mean r (t - 1)).2 ∧
      res.1 = update_mean inputs dim N k
          (pass_state sqrt inputs dim N k mean r (t - 1)).1 res.2 ∧
      ((∀ c a, c < k → a < dim →
          res.1 ((c : Int) * dim + a)
            = (pass_state sqrt inputs dim N k mean r (t - 1)).1 ((c : Int) * dim + a)) →
        update_r sqrt inputs dim N k res.1 res.2 = res.2) := by
  obtain ⟨n, hn, hearly, hstop, hres⟩ :=
    calc_kmeans_loop_returns_first_stop sqrt inputs dim N k res fuel (mean, r) h
  have hstate : pass_state sqrt inputs dim N k mean r (n + 1)
      = kmeans_pass sqrt inputs dim N k (pass_state sqrt inputs dim N k mean r n) := by
    simp only [pass_state, Function.iterate_succ_apply']
  have hres2 : res = pass_state sqrt inputs dim N k mean r (n + 1) := hres
  have h2 : res.2 = update_r sqrt inputs dim N k
      (pass_state sqrt inputs dim N k mean r n).1
      (pass_state sqrt inputs dim N k mean r n).2 := by
    rw [hres2, hstate]; rfl
  have h1 : res.1 = update_mean inputs dim N k
      (pass_state sqrt inputs dim N k mean r n).1 res.2 := by
    rw [h2, hres2, hstate]; rfl
  refine ⟨n + 1, by omega, by omega, hres2, ?_, ?_, ?_, ?_, ?_⟩
  · simpa only [objective_seq, pass_state, Nat.add_sub_cancel] using hstop
  · intro s hs1 hs2
    obtain ⟨j, rfl⟩ : ∃ j, s = j + 1 := ⟨s - 1, by omega⟩
    have := hearly j (by omega)
    simpa only [objective_seq, pass_state, Nat.add_sub_cancel] using this
  · simpa only [Nat.add_sub_cancel] using h2
  · simpa only [Nat.add_sub_cancel] using h1
  · simp only [Nat.add_sub_cancel]
    intro hstay
    funext i
    rw [update_r_apply]
    split
    · rename_i hi
      rw [update_r_search_congr sqrt inputs dim k res.1
        (pass_state sqrt inputs dim N k mean r n).1 hstay i]
      conv_rhs => rw [h2, update_r_apply, if_pos hi]
    · rfl

end Core

/-- The run on the rows `[1], [2], [9], [10]` with fuel for two passes returns
the state after the second pass. -/
theorem scenario_calc_kmeans :
    calc_kmeans Real.sqrt scenario_inputs 1 4 2 2 scenario_mean (fun _ => 0)
      = some (pass_state Real.sqrt scenario_inputs 1 4 2 scenario_mean (fun _ => 0) 2) := by
  have hmain := calc_kmeans_loop_first_stop Real.sqrt scenario_inputs 1 4 2 1
    (scenario_mean, fun _ => 0)
    (fun j hj => by
      have hj0 : j = 0 := by omega
      subst hj0
      have := scenario_objective_early 1 (le_refl 1) (by decide)
      simpa only [objective_seq, pass_state, Nat.sub_self] using this)
    (by simpa only [objective_seq, pass_state] using scenario_objective_stop)
  exact hmain.1 2 (le_refl 2)

/-- On the scenario the second pass leaves both centroids as the first pass
made them. -/
theorem scenario_centroids_stay :
    ∀ c a : Nat, c < 2 → a < 1 →
      (pass_state Real.sqrt scenario_inputs 1 4 2 scenario_mean (fun _ => 0) 2).1
          ((c : Int) * (1 : Nat) + a)
        = (pass_state Real.sqrt scenario_inputs 1 4 2 scenario_mean (fun _ => 0) (2 - 1)).1
          ((c : Int) * (1 : Nat) + a) := by
  intro c a hc ha
  have hin : ∀ i, i < 4 → (scenario_inputs : Nat → ℝ) i = scenario_inputs i := fun _ _ => rfl
  have hr1 := scenario_update_r scenario_inputs hin scenario_mean _ _ rfl rfl
    (Or.inl ⟨rfl, rfl⟩) (fun _ => 0)
  have hm1 := scenario_update_mean scenario_inputs hin scenario_mean _ hr1
  have hr2 := scenario_update_r scenario_inputs hin _ _ _ hm1.1 hm1.2 (Or.inr ⟨rfl, rfl⟩)
    (update_r Real.sqrt scenario_inputs 1 4 2 scenario_mean (fun _ => 0))
  have hm2 := scenario_update_mean scenario_inputs hin
    (update_mean scenario_inputs 1 4 2 scenario_mean
      (update_r Real.sqrt scenario_inputs 1 4 2 scenario_mean (fun _ => 0)))
    _ hr2
  have ha0 : a = 0 := by omega
  subst ha0
  simp only [pass_state, Function.iterate_succ_apply', Function.iterate_zero, id_eq,
    kmeans_pass, Nat.cast_zero, add_zero, Nat.cast_one, mul_one]
  interval_cases c
  · simp only [Nat.cast_zero]
    rw [hm2.1, hm1.1]
  · simp only [Nat.cast_one]
    rw [hm2.2, hm1.2]

/-- Witness of the amended C4 on the rows `[1], [2], [9], [10]`: the run
returns after pass 2, which left both centroids at `3/2` and `19/2`, and
running `update_r` once more with the final centroids yields the final
assignment vector. -/
theorem calc_kmeans_fixed_point_when_centroids_stay_witness :
    calc_kmeans Real.sqrt scenario_inputs 1 4 2 2 scenario_mean (fun _ => 0)
      = some (pass_state Real.sqrt scenario_inputs 1 4 2 scenario_mean (fun _ => 0) 2) ∧
    (∀ c a : Nat, c < 2 → a < 1 →
      (pass_state Real.sqrt scenario_inputs 1 4 2 scenario_mean (fun _ => 0) 2).1
          ((c : Int) * (1 : Nat) + a)
        = (pass_state Real.sqrt scenario_inputs 1 4 2 scenario_mean (fun _ => 0) (2 - 1)).1
          ((c : Int) * (1 : Nat) + a)) ∧
    update_r Real.sqrt scenario_inputs 1 4 2
        (pass_state Real.sqrt scenario_inputs 1 4 2 scenario_mean (fun _ => 0) 2).1
        (pass_state Real.sqrt scenario_inputs 1 4 2 scenario_mean (fun _ => 0) 2).2
      = (pass_state Real.sqrt scenario_inputs 1 4 2 scenario_mean (fun _ => 0) 2).2 := by
  refine ⟨scenario_calc_kmeans, scenario_centroids_stay, ?_⟩
  obtain ⟨t, ht1, ht2, -, hstop, -, -, -, hfix⟩ :=
    calc_kmeans_fixed_point_when_centroids_stay Real.sqrt scenario_inputs 1 4 2 2 scenario_mean
      (fun _ => 0) _ scenario_calc_kmeans
  have ht : t = 2 := by
    by_contra hne
    have h1 : t = 1 := by omega
    subst h1
    rw [scenario_objective_seq.1, scenario_objective_seq.2.1] at hstop
    norm_num at hstop
  subst ht
  exact hfix scenario_centroids_stay

end Kmeans
